import Mathlib

/-!
Verification of the strided iteration core of the `imgref-iter` crate.

Addresses are modelled as natural numbers counting elements from an
arbitrary origin, so pointer arithmetic `ptr.add(k)` becomes `+ k` on `Nat`.
A raw slice pointer `*const [T]` carries its length without dereferencing
(`slice_ptr_len` in `src/lib.rs`), so a slice pointer is modelled by the
pair (base address, length).  Panicking code paths are modelled with
`Except`, and `usize` arithmetic that cannot underflow in the modelled
regime maps to truncated `Nat` arithmetic (`saturating_sub` is exactly
`Nat` subtraction).
-/

namespace ImgrefIter

/-! ### The raw cursors `IterPtr` and `IterPtrMut` -/

/-- Shallow embedding of `IterPtr<T>` from `src/iter/generic/ptr.rs`:
field 0 is the slice pointer, modelled as base address (`base`) plus carried
length (`count`), and field 1 is the stride. -/
structure IterPtr where
  base : Nat
  count : Nat
  stride : Nat
deriving DecidableEq, Repr

/-- Shallow embedding of `IterPtrMut<T>` from `src/iter/generic/ptr.rs`.
Its iteration code is textually identical to `IterPtr`'s (only the pointer
mutability differs, which is invisible to address arithmetic). -/
structure IterPtrMut where
  base : Nat
  count : Nat
  stride : Nat
deriving DecidableEq, Repr

/-- `IterPtr::is_slice_perfect` from `src/iter/generic/ptr.rs`. -/
def is_slice_perfect (len stride : Nat) : Bool :=
  len == 0 || stride == 1 || len % stride == 1

namespace IterPtr

/-- `<IterPtr as Iterator>::next`: if the slice length is positive, yield the
slice base address, advance the base by `min(stride, len)` and
saturating-subtract the stride from the length; otherwise yield nothing. -/
def next (p : IterPtr) : Option (Nat × IterPtr) :=
  if 0 < p.count then
    some (p.base, ⟨p.base + min p.stride p.count, p.count - p.stride, p.stride⟩)
  else
    none

/-- `<IterPtr as DoubleEndedIterator>::next_back`: if the slice length is
positive, yield the address of the last element (`base + len - 1`), keep the
base and saturating-subtract the stride from the length. -/
def next_back (p : IterPtr) : Option (Nat × IterPtr) :=
  if 0 < p.count then
    some (p.base + (p.count - 1), ⟨p.base, p.count - p.stride, p.stride⟩)
  else
    none

/-- `<IterPtr as ExactSizeIterator>::len`: `(len + (stride - 1)) / stride`. -/
def len (p : IterPtr) : Nat :=
  (p.count + (p.stride - 1)) / p.stride

/-- The slice-perfect invariant as a proposition on a cursor state. -/
def Perfect (p : IterPtr) : Prop :=
  is_slice_perfect p.count p.stride = true

instance (p : IterPtr) : Decidable p.Perfect := by
  unfold Perfect; infer_instance

/-- The ideal address sequence of a cursor: `len` addresses starting at the
base and spaced `stride` apart. -/
def model (p : IterPtr) : List Nat :=
  (List.range p.len).map (fun i => p.base + i * p.stride)

/-- Drive a cursor by a list of direction choices (`true` = `next`,
`false` = `next_back`), collecting the forward-yielded addresses, the
backward-yielded addresses (in temporal order) and the final state. -/
def runDirs : IterPtr → List Bool → List Nat × List Nat × IterPtr
  | p, [] => ([], [], p)
  | p, true :: ds =>
    (match p.next with
      | some a => let r := runDirs a.2 ds; (a.1 :: r.1, r.2.1, r.2.2)
      | none => runDirs p ds)
  | p, false :: ds =>
    (match p.next_back with
      | some a => let r := runDirs a.2 ds; (r.1, a.1 :: r.2.1, r.2.2)
      | none => runDirs p ds)

end IterPtr

namespace IterPtrMut

/-- `<IterPtrMut as Iterator>::next` (same arithmetic as `IterPtr::next`). -/
def next (p : IterPtrMut) : Option (Nat × IterPtrMut) :=
  if 0 < p.count then
    some (p.base, ⟨p.base + min p.stride p.count, p.count - p.stride, p.stride⟩)
  else
    none

/-- `<IterPtrMut as DoubleEndedIterator>::next_back`. -/
def next_back (p : IterPtrMut) : Option (Nat × IterPtrMut) :=
  if 0 < p.count then
    some (p.base + (p.count - 1), ⟨p.base, p.count - p.stride, p.stride⟩)
  else
    none

/-- `<IterPtrMut as ExactSizeIterator>::len`. -/
def len (p : IterPtrMut) : Nat :=
  (p.count + (p.stride - 1)) / p.stride

/-- The slice-perfect invariant on a mutable cursor state. -/
def Perfect (p : IterPtrMut) : Prop :=
  is_slice_perfect p.count p.stride = true

instance (p : IterPtrMut) : Decidable p.Perfect := by
  unfold Perfect; infer_instance

/-- Drive a mutable cursor by direction choices, as `IterPtr.runDirs`. -/
def runDirs : IterPtrMut → List Bool → List Nat × List Nat × IterPtrMut
  | p, [] => ([], [], p)
  | p, true :: ds =>
    (match p.next with
      | some a => let r := runDirs a.2 ds; (a.1 :: r.1, r.2.1, r.2.2)
      | none => runDirs p ds)
  | p, false :: ds =>
    (match p.next_back with
      | some a => let r := runDirs a.2 ds; (r.1, a.1 :: r.2.1, r.2.2)
      | none => runDirs p ds)

/-- Forget mutability: the shared-pointer cursor with the same state. -/
def toConst (p : IterPtrMut) : IterPtr := ⟨p.base, p.count, p.stride⟩

end IterPtrMut

/-- Re-tag a shared cursor state as a mutable one. -/
def IterPtr.toMut (p : IterPtr) : IterPtrMut := ⟨p.base, p.count, p.stride⟩

/-! ### Buffers, panics and the checked row/column constructors -/

/-- Panic reasons, one per assertion site in the modelled source. -/
inductive Panic where
  | tooShort
  | widthGtStride
  | assertFail
deriving DecidableEq, Repr

/-- Shallow embedding of `imgref::Img` specialised to a raw slice buffer:
the slice pointer is (base address, carried length) plus the declared
width, height and stride. -/
structure Img where
  base : Nat
  bufLen : Nat
  width : Nat
  height : Nat
  stride : Nat
deriving DecidableEq, Repr

/-- `IterPtr::assert_slice_enough` from `src/iter/generic/ptr.rs`: panics
`tooShort` when the backing slice is shorter than
`stride * (height - 1) + width`, else panics `widthGtStride` when
`width > stride`, else passes.  (`IterPtrMut::assert_slice_enough`
delegates to this function.) -/
def assert_slice_enough (buf : Img) : Option Panic :=
  let needed := buf.stride * (buf.height - 1) + buf.width
  if buf.bufLen < needed then some .tooShort
  else if buf.stride < buf.width then some .widthGtStride
  else none

/-- `IterPtr::row_ptr_unchecked`: cursor over the `row`-th row — base offset
`row * stride`, count `width`, stride `1`. -/
def IterPtr.row_ptr_unchecked (buf : Img) (row : Nat) : IterPtr :=
  ⟨buf.base + row * buf.stride, buf.width, 1⟩

/-- `IterPtr::col_ptr_unchecked`: cursor over the `col`-th column — base
offset `col`, count `stride * (height - 1) + 1`, stride = buffer stride. -/
def IterPtr.col_ptr_unchecked (buf : Img) (col : Nat) : IterPtr :=
  ⟨buf.base + col, buf.stride * (buf.height - 1) + 1, buf.stride⟩

/-- `IterPtr::row_ptr`: `assert_slice_enough`, then `assert!(row < height)`,
then the unchecked constructor. -/
def IterPtr.row_ptr (buf : Img) (row : Nat) : Except Panic IterPtr :=
  match assert_slice_enough buf with
  | some k => .error k
  | none =>
    if row < buf.height then .ok (IterPtr.row_ptr_unchecked buf row)
    else .error .assertFail

/-- `IterPtr::col_ptr`: `assert_slice_enough`, then `assert!(col < width)`,
then the unchecked constructor. -/
def IterPtr.col_ptr (buf : Img) (col : Nat) : Except Panic IterPtr :=
  match assert_slice_enough buf with
  | some k => .error k
  | none =>
    if col < buf.width then .ok (IterPtr.col_ptr_unchecked buf col)
    else .error .assertFail

/-- `IterPtrMut::row_ptr` (same checks, mutable cursor). -/
def IterPtrMut.row_ptr (buf : Img) (row : Nat) : Except Panic IterPtrMut :=
  match assert_slice_enough buf with
  | some k => .error k
  | none =>
    if row < buf.height then .ok ⟨buf.base + row * buf.stride, buf.width, 1⟩
    else .error .assertFail

/-- `IterPtrMut::col_ptr` (same checks, mutable cursor). -/
def IterPtrMut.col_ptr (buf : Img) (col : Nat) : Except Panic IterPtrMut :=
  match assert_slice_enough buf with
  | some k => .error k
  | none =>
    if col < buf.width then
      .ok ⟨buf.base + col, buf.stride * (buf.height - 1) + 1, buf.stride⟩
    else .error .assertFail

/-! ### The rows/cols window sequences from `src/iter/rows` and
`src/iter/cols` -/

/-- `IterRowsPtr<T>` from `src/iter/rows/ptr.rs`: buffer plus remaining row
index range `lo..hi`. -/
structure IterRowsPtr where
  buf : Img
  lo : Nat
  hi : Nat
deriving DecidableEq, Repr

/-- `IterRowsPtr::new`: stores the buffer and the range `0..height`; no
validation of any kind is performed. -/
def IterRowsPtr.new (buf : Img) : IterRowsPtr := ⟨buf, 0, buf.height⟩

/-- `<IterRowsPtr as Iterator>::next`: pops the front of the index range and
materializes the row through the checked `IterPtr::row_ptr`, which may
panic. -/
def IterRowsPtr.next (s : IterRowsPtr) :
    Except Panic (Option (IterPtr × IterRowsPtr)) :=
  if s.lo < s.hi then
    (IterPtr.row_ptr s.buf s.lo).map (fun it => some (it, ⟨s.buf, s.lo + 1, s.hi⟩))
  else
    .ok none

/-- `<IterRowsPtr as DoubleEndedIterator>::next_back`. -/
def IterRowsPtr.next_back (s : IterRowsPtr) :
    Except Panic (Option (IterPtr × IterRowsPtr)) :=
  if s.lo < s.hi then
    (IterPtr.row_ptr s.buf (s.hi - 1)).map
      (fun it => some (it, ⟨s.buf, s.lo, s.hi - 1⟩))
  else
    .ok none

/-- `IterColsPtr<T>` from `src/iter/cols/ptr.rs`: buffer plus remaining
column index range. -/
structure IterColsPtr where
  buf : Img
  lo : Nat
  hi : Nat
deriving DecidableEq, Repr

/-- `IterColsPtr::new`: stores the buffer and the range `0..width`; no
validation is performed. -/
def IterColsPtr.new (buf : Img) : IterColsPtr := ⟨buf, 0, buf.width⟩

/-- `<IterColsPtr as Iterator>::next`: pops the front of the index range and
materializes the column through the checked `IterPtr::col_ptr` (reached via
`iter_col_ptr`), which may panic. -/
def IterColsPtr.next (s : IterColsPtr) :
    Except Panic (Option (IterPtr × IterColsPtr)) :=
  if s.lo < s.hi then
    (IterPtr.col_ptr s.buf s.lo).map (fun it => some (it, ⟨s.buf, s.lo + 1, s.hi⟩))
  else
    .ok none

/-- `<IterColsPtr as DoubleEndedIterator>::next_back`. -/
def IterColsPtr.next_back (s : IterColsPtr) :
    Except Panic (Option (IterPtr × IterColsPtr)) :=
  if s.lo < s.hi then
    (IterPtr.col_ptr s.buf (s.hi - 1)).map
      (fun it => some (it, ⟨s.buf, s.lo, s.hi - 1⟩))
  else
    .ok none

/-- `IterRowsPtrMut<T>` from `src/iter/rows/ptr.rs`. -/
structure IterRowsPtrMut where
  buf : Img
  lo : Nat
  hi : Nat
deriving DecidableEq, Repr

/-- `IterRowsPtrMut::new`: no validation. -/
def IterRowsPtrMut.new (buf : Img) : IterRowsPtrMut := ⟨buf, 0, buf.height⟩

/-- `<IterRowsPtrMut as Iterator>::next` via `IterPtrMut::row_ptr`. -/
def IterRowsPtrMut.next (s : IterRowsPtrMut) :
    Except Panic (Option (IterPtrMut × IterRowsPtrMut)) :=
  if s.lo < s.hi then
    (IterPtrMut.row_ptr s.buf s.lo).map
      (fun it => some (it, ⟨s.buf, s.lo + 1, s.hi⟩))
  else
    .ok none

/-- `<IterRowsPtrMut as DoubleEndedIterator>::next_back`. -/
def IterRowsPtrMut.next_back (s : IterRowsPtrMut) :
    Except Panic (Option (IterPtrMut × IterRowsPtrMut)) :=
  if s.lo < s.hi then
    (IterPtrMut.row_ptr s.buf (s.hi - 1)).map
      (fun it => some (it, ⟨s.buf, s.lo, s.hi - 1⟩))
  else
    .ok none

/-- `IterColsPtrMut<T>` from `src/iter/cols/ptr.rs`. -/
structure IterColsPtrMut where
  buf : Img
  lo : Nat
  hi : Nat
deriving DecidableEq, Repr

/-- `IterColsPtrMut::new`: no validation. -/
def IterColsPtrMut.new (buf : Img) : IterColsPtrMut := ⟨buf, 0, buf.width⟩

/-- `<IterColsPtrMut as Iterator>::next` via `IterPtrMut::col_ptr`. -/
def IterColsPtrMut.next (s : IterColsPtrMut) :
    Except Panic (Option (IterPtrMut × IterColsPtrMut)) :=
  if s.lo < s.hi then
    (IterPtrMut.col_ptr s.buf s.lo).map
      (fun it => some (it, ⟨s.buf, s.lo + 1, s.hi⟩))
  else
    .ok none

/-- `<IterColsPtrMut as DoubleEndedIterator>::next_back`. -/
def IterColsPtrMut.next_back (s : IterColsPtrMut) :
    Except Panic (Option (IterPtrMut × IterColsPtrMut)) :=
  if s.lo < s.hi then
    (IterPtrMut.col_ptr s.buf (s.hi - 1)).map
      (fun it => some (it, ⟨s.buf, s.lo, s.hi - 1⟩))
  else
    .ok none

/-! ### The lane-group layer from `src/iter/simd/ptr.rs` -/

/-- `SimdIterPtr<T, LANES>`: inner cursor plus gap; the const-generic lane
count becomes an explicit argument of the operations, and the yielded
fixed-size array `[*const T; LANES]` becomes a list of LANES addresses. -/
structure SimdIterPtr where
  inner : IterPtr
  gap : Nat
deriving DecidableEq, Repr

/-- `SimdIterPtrMut<T, LANES>` (same arithmetic over the mutable cursor). -/
structure SimdIterPtrMut where
  inner : IterPtrMut
  gap : Nat
deriving DecidableEq, Repr

namespace SimdIterPtr

/-- `SimdIterPtr::expand`: `[one + gap*0, ..., one + gap*(LANES-1)]`. -/
def expand (LANES : Nat) (s : SimdIterPtr) (one : Nat) : List Nat :=
  (List.range LANES).map (fun i => one + s.gap * i)

/-- `<SimdIterPtr as Iterator>::next`: step the inner cursor, expanding the
yielded address. -/
def next (LANES : Nat) (s : SimdIterPtr) : Option (List Nat × SimdIterPtr) :=
  (s.inner.next).map (fun x => (s.expand LANES x.1, ⟨x.2, s.gap⟩))

/-- `<SimdIterPtr as DoubleEndedIterator>::next_back`. -/
def next_back (LANES : Nat) (s : SimdIterPtr) : Option (List Nat × SimdIterPtr) :=
  (s.inner.next_back).map (fun x => (s.expand LANES x.1, ⟨x.2, s.gap⟩))

/-- `<SimdIterPtr as ExactSizeIterator>::len`: delegates to the inner
cursor. -/
def len (s : SimdIterPtr) : Nat := s.inner.len

/-- Drive a lane group by direction choices, collecting expanded yields. -/
def runDirs (LANES : Nat) :
    SimdIterPtr → List Bool → List (List Nat) × List (List Nat) × SimdIterPtr
  | s, [] => ([], [], s)
  | s, true :: ds =>
    (match next LANES s with
      | some a => let r := runDirs LANES a.2 ds; (a.1 :: r.1, r.2.1, r.2.2)
      | none => runDirs LANES s ds)
  | s, false :: ds =>
    (match next_back LANES s with
      | some a => let r := runDirs LANES a.2 ds; (r.1, a.1 :: r.2.1, r.2.2)
      | none => runDirs LANES s ds)

end SimdIterPtr

namespace SimdIterPtrMut

/-- `SimdIterPtrMut::expand`. -/
def expand (LANES : Nat) (s : SimdIterPtrMut) (one : Nat) : List Nat :=
  (List.range LANES).map (fun i => one + s.gap * i)

/-- `<SimdIterPtrMut as Iterator>::next`. -/
def next (LANES : Nat) (s : SimdIterPtrMut) : Option (List Nat × SimdIterPtrMut) :=
  (s.inner.next).map (fun x => (s.expand LANES x.1, ⟨x.2, s.gap⟩))

/-- `<SimdIterPtrMut as DoubleEndedIterator>::next_back`. -/
def next_back (LANES : Nat) (s : SimdIterPtrMut) :
    Option (List Nat × SimdIterPtrMut) :=
  (s.inner.next_back).map (fun x => (s.expand LANES x.1, ⟨x.2, s.gap⟩))

/-- `<SimdIterPtrMut as ExactSizeIterator>::len`. -/
def len (s : SimdIterPtrMut) : Nat := s.inner.len

/-- Drive a mutable lane group by direction choices. -/
def runDirs (LANES : Nat) :
    SimdIterPtrMut → List Bool → List (List Nat) × List (List Nat) × SimdIterPtrMut
  | s, [] => ([], [], s)
  | s, true :: ds =>
    (match next LANES s with
      | some a => let r := runDirs LANES a.2 ds; (a.1 :: r.1, r.2.1, r.2.2)
      | none => runDirs LANES s ds)
  | s, false :: ds =>
    (match next_back LANES s with
      | some a => let r := runDirs LANES a.2 ds; (r.1, a.1 :: r.2.1, r.2.2)
      | none => runDirs LANES s ds)

end SimdIterPtrMut

/-! ### The lane window sequences from `src/iter/simd_windows/ptr.rs` -/

/-- `IterPtr::new` with its slice-perfect assertion, `Except`-valued. -/
def IterPtr.newChecked (base count stride : Nat) : Except Panic IterPtr :=
  if is_slice_perfect count stride then .ok ⟨base, count, stride⟩
  else .error .assertFail

/-- `IterPtrMut::new` with its slice-perfect assertion. -/
def IterPtrMut.newChecked (base count stride : Nat) : Except Panic IterPtrMut :=
  if is_slice_perfect count stride then .ok ⟨base, count, stride⟩
  else .error .assertFail

/-- `SimdIterWindowsPtr<T, LANES>`: anchor window slice (base, winLen), the
window's own stride, the per-iteration displacement, and the remaining
index range `lo..hi`. -/
structure SimdIterWindowsPtr where
  base : Nat
  winLen : Nat
  sliceStride : Nat
  iterStride : Nat
  lo : Nat
  hi : Nat
deriving DecidableEq, Repr

/-- `SimdIterWindowPtr<T, LANES>`: the tagged union yielded per step. -/
inductive SimdIterWindowPtr where
  | Simd (iter : SimdIterPtr)
  | Single (iter : IterPtr)
deriving DecidableEq, Repr

/-- `SimdIterWindowsPtrMut<T, LANES>`. -/
structure SimdIterWindowsPtrMut where
  base : Nat
  winLen : Nat
  sliceStride : Nat
  iterStride : Nat
  lo : Nat
  hi : Nat
deriving DecidableEq, Repr

/-- `SimdIterWindowPtrMut<T, LANES>`. -/
inductive SimdIterWindowPtrMut where
  | Simd (iter : SimdIterPtrMut)
  | Single (iter : IterPtrMut)
deriving DecidableEq, Repr

namespace SimdIterWindowsPtr

/-- `<SimdIterWindowsPtr as Iterator>::next`: with at least LANES indices
remaining, consume LANES of them and emit a lane group over the window at
the first consumed index (gap = the per-iteration displacement); otherwise
consume one index and emit a single cursor; the inner `IterPtr::new` call
asserts the window's slice-perfect invariant. -/
def next (LANES : Nat) (s : SimdIterWindowsPtr) :
    Except Panic (Option (SimdIterWindowPtr × SimdIterWindowsPtr)) :=
  if LANES ≤ s.hi - s.lo then
    (IterPtr.newChecked (s.base + s.lo * s.iterStride) s.winLen s.sliceStride).map
      (fun it => some (.Simd ⟨it, s.iterStride⟩,
        ⟨s.base, s.winLen, s.sliceStride, s.iterStride, s.lo + LANES, s.hi⟩))
  else if s.lo < s.hi then
    (IterPtr.newChecked (s.base + s.lo * s.iterStride) s.winLen s.sliceStride).map
      (fun it => some (.Single it,
        ⟨s.base, s.winLen, s.sliceStride, s.iterStride, s.lo + 1, s.hi⟩))
  else
    .ok none

/-- `<SimdIterWindowsPtr as DoubleEndedIterator>::next_back`: with at least
LANES indices remaining, `nth_back(LANES-1)` consumes LANES indices and
anchors the lane group at index `hi - LANES`; otherwise one index is
consumed from the back. -/
def next_back (LANES : Nat) (s : SimdIterWindowsPtr) :
    Except Panic (Option (SimdIterWindowPtr × SimdIterWindowsPtr)) :=
  if LANES ≤ s.hi - s.lo then
    (IterPtr.newChecked (s.base + (s.hi - LANES) * s.iterStride) s.winLen s.sliceStride).map
      (fun it => some (.Simd ⟨it, s.iterStride⟩,
        ⟨s.base, s.winLen, s.sliceStride, s.iterStride, s.lo, s.hi - LANES⟩))
  else if s.lo < s.hi then
    (IterPtr.newChecked (s.base + (s.hi - 1) * s.iterStride) s.winLen s.sliceStride).map
      (fun it => some (.Single it,
        ⟨s.base, s.winLen, s.sliceStride, s.iterStride, s.lo, s.hi - 1⟩))
  else
    .ok none

/-- `<SimdIterWindowsPtr as ExactSizeIterator>::len`:
`range.len() / LANES + range.len() % LANES`. -/
def len (LANES : Nat) (s : SimdIterWindowsPtr) : Nat :=
  (s.hi - s.lo) / LANES + (s.hi - s.lo) % LANES

/-- Run forward to exhaustion (with fuel), counting batch and single
yields. -/
def runF (LANES : Nat) : Nat → SimdIterWindowsPtr → Except Panic (Nat × Nat)
  | 0, _ => .ok (0, 0)
  | fuel + 1, s =>
    match next LANES s with
    | .error k => .error k
    | .ok none => .ok (0, 0)
    | .ok (some (item, s2)) =>
      (runF LANES fuel s2).map (fun bs =>
        match item with
        | .Simd _ => (bs.1 + 1, bs.2)
        | .Single _ => (bs.1, bs.2 + 1))

/-- Run backward to exhaustion (with fuel), counting batch and single
yields. -/
def runB (LANES : Nat) : Nat → SimdIterWindowsPtr → Except Panic (Nat × Nat)
  | 0, _ => .ok (0, 0)
  | fuel + 1, s =>
    match next_back LANES s with
    | .error k => .error k
    | .ok none => .ok (0, 0)
    | .ok (some (item, s2)) =>
      (runB LANES fuel s2).map (fun bs =>
        match item with
        | .Simd _ => (bs.1 + 1, bs.2)
        | .Single _ => (bs.1, bs.2 + 1))

end SimdIterWindowsPtr

namespace SimdIterWindowsPtrMut

/-- `<SimdIterWindowsPtrMut as Iterator>::next`. -/
def next (LANES : Nat) (s : SimdIterWindowsPtrMut) :
    Except Panic (Option (SimdIterWindowPtrMut × SimdIterWindowsPtrMut)) :=
  if LANES ≤ s.hi - s.lo then
    (IterPtrMut.newChecked (s.base + s.lo * s.iterStride) s.winLen s.sliceStride).map
      (fun it => some (.Simd ⟨it, s.iterStride⟩,
        ⟨s.base, s.winLen, s.sliceStride, s.iterStride, s.lo + LANES, s.hi⟩))
  else if s.lo < s.hi then
    (IterPtrMut.newChecked (s.base + s.lo * s.iterStride) s.winLen s.sliceStride).map
      (fun it => some (.Single it,
        ⟨s.base, s.winLen, s.sliceStride, s.iterStride, s.lo + 1, s.hi⟩))
  else
    .ok none

/-- `<SimdIterWindowsPtrMut as DoubleEndedIterator>::next_back`. -/
def next_back (LANES : Nat) (s : SimdIterWindowsPtrMut) :
    Except Panic (Option (SimdIterWindowPtrMut × SimdIterWindowsPtrMut)) :=
  if LANES ≤ s.hi - s.lo then
    (IterPtrMut.newChecked (s.base + (s.hi - LANES) * s.iterStride) s.winLen s.sliceStride).map
      (fun it => some (.Simd ⟨it, s.iterStride⟩,
        ⟨s.base, s.winLen, s.sliceStride, s.iterStride, s.lo, s.hi - LANES⟩))
  else if s.lo < s.hi then
    (IterPtrMut.newChecked (s.base + (s.hi - 1) * s.iterStride) s.winLen s.sliceStride).map
      (fun it => some (.Single it,
        ⟨s.base, s.winLen, s.sliceStride, s.iterStride, s.lo, s.hi - 1⟩))
  else
    .ok none

/-- `<SimdIterWindowsPtrMut as ExactSizeIterator>::len`. -/
def len (LANES : Nat) (s : SimdIterWindowsPtrMut) : Nat :=
  (s.hi - s.lo) / LANES + (s.hi - s.lo) % LANES

/-- Forward exhaustion run, counting batch and single yields. -/
def runF (LANES : Nat) : Nat → SimdIterWindowsPtrMut → Except Panic (Nat × Nat)
  | 0, _ => .ok (0, 0)
  | fuel + 1, s =>
    match next LANES s with
    | .error k => .error k
    | .ok none => .ok (0, 0)
    | .ok (some (item, s2)) =>
      (runF LANES fuel s2).map (fun bs =>
        match item with
        | .Simd _ => (bs.1 + 1, bs.2)
        | .Single _ => (bs.1, bs.2 + 1))

/-- Backward exhaustion run, counting batch and single yields. -/
def runB (LANES : Nat) : Nat → SimdIterWindowsPtrMut → Except Panic (Nat × Nat)
  | 0, _ => .ok (0, 0)
  | fuel + 1, s =>
    match next_back LANES s with
    | .error k => .error k
    | .ok none => .ok (0, 0)
    | .ok (some (item, s2)) =>
      (runB LANES fuel s2).map (fun bs =>
        match item with
        | .Simd _ => (bs.1 + 1, bs.2)
        | .Single _ => (bs.1, bs.2 + 1))

end SimdIterWindowsPtrMut

/-! ### Theorems -/

/-! ### Arithmetic helpers about the length formula `(c + (s - 1)) / s` -/

theorem lenF_zero (s : Nat) (hs : 1 ≤ s) : (0 + (s - 1)) / s = 0 :=
  Nat.div_eq_of_lt (by omega)

theorem lenF_pos (c s : Nat) (hs : 1 ≤ s) (hc : 0 < c) :
    0 < (c + (s - 1)) / s :=
  Nat.div_pos (by omega) (by omega)

theorem lenF_succ (c s : Nat) (hs : 1 ≤ s) (hc : 0 < c) :
    (c + (s - 1)) / s = (c - 1) / s + 1 := by
  have h1 : c + (s - 1) = (c - 1) + s := by omega
  rw [h1, Nat.add_div_right _ (by omega)]

theorem lenF_sub (c s : Nat) (hs : 1 ≤ s) (hc : 0 < c) :
    (c - s + (s - 1)) / s = (c + (s - 1)) / s - 1 := by
  rcases Nat.lt_or_ge s c with hlt | hge
  · rw [lenF_succ c s hs hc, lenF_succ (c - s) s hs (by omega)]
    have hsplit : c - 1 = (c - s - 1) + s := by omega
    rw [hsplit, Nat.add_div_right _ (by omega : 0 < s)]
    simp
  · have hz : c - s = 0 := by omega
    rw [hz, lenF_zero s hs, lenF_succ c s hs hc]
    have h0 : (c - 1) / s = 0 := Nat.div_eq_of_lt (by omega)
    omega

theorem lenF_eq_zero (c s : Nat) (hs : 1 ≤ s) (hc : c = 0) :
    (c + (s - 1)) / s = 0 := by
  rw [hc]; exact lenF_zero s hs

namespace IterPtr

theorem perfect_iff (p : IterPtr) :
    p.Perfect ↔ (p.count = 0 ∨ p.stride = 1 ∨ p.count % p.stride = 1) := by
  unfold Perfect is_slice_perfect
  simp [or_assoc]

theorem len_mk (b c s : Nat) : (IterPtr.mk b c s).len = (c + (s - 1)) / s := rfl

theorem model_mk (b c s : Nat) :
    (IterPtr.mk b c s).model
      = (List.range ((c + (s - 1)) / s)).map (fun i => b + i * s) := rfl

theorem next_of_pos (p : IterPtr) (h : 0 < p.count) :
    p.next = some (p.base,
      ⟨p.base + min p.stride p.count, p.count - p.stride, p.stride⟩) := by
  simp [next, h]

theorem next_of_zero (p : IterPtr) (h : p.count = 0) : p.next = none := by
  simp [next, h]

theorem next_back_of_pos (p : IterPtr) (h : 0 < p.count) :
    p.next_back = some (p.base + (p.count - 1),
      ⟨p.base, p.count - p.stride, p.stride⟩) := by
  simp [next_back, h]

theorem next_back_of_zero (p : IterPtr) (h : p.count = 0) : p.next_back = none := by
  simp [next_back, h]

theorem len_zero_of_count (p : IterPtr) (hs : 1 ≤ p.stride) (h : p.count = 0) :
    p.len = 0 := by
  obtain ⟨b, c, s⟩ := p
  simp only at h hs
  rw [len_mk]
  exact lenF_eq_zero c s hs h

theorem len_pos_of_count (p : IterPtr) (hs : 1 ≤ p.stride) (h : 0 < p.count) :
    0 < p.len := by
  obtain ⟨b, c, s⟩ := p
  simp only at h hs
  rw [len_mk]
  exact lenF_pos c s hs h

theorem len_step (b b' c s : Nat) (hs : 1 ≤ s) (hc : 0 < c) :
    (IterPtr.mk b' (c - s) s).len = (IterPtr.mk b c s).len - 1 := by
  rw [len_mk, len_mk]
  exact lenF_sub c s hs hc

theorem perfect_count_le (b c s : Nat) (hs : 1 ≤ s) (hp : (IterPtr.mk b c s).Perfect)
    (hc : 0 < c) (hle : c ≤ s) : c = 1 := by
  rw [perfect_iff] at hp
  simp only at hp
  rcases hp with h | h | h
  · omega
  · omega
  · rcases Nat.lt_or_ge c s with hlt | hge
    · rwa [Nat.mod_eq_of_lt hlt] at h
    · have hcs : c = s := by omega
      rw [hcs, Nat.mod_self] at h
      omega

theorem perfect_sub_stride (b b' c s : Nat) (hp : (IterPtr.mk b c s).Perfect) :
    (IterPtr.mk b' (c - s) s).Perfect := by
  rw [perfect_iff] at *
  simp only at *
  rcases hp with h | h | h
  · left; omega
  · right; left; exact h
  · rcases Nat.lt_or_ge c s with hlt | hge
    · left; omega
    · right; right
      have hcs : c - s + s = c := by omega
      calc (c - s) % s = (c - s + s) % s := (Nat.add_mod_right _ _).symm
        _ = c % s := by rw [hcs]
        _ = 1 := h

theorem model_of_zero (p : IterPtr) (hs : 1 ≤ p.stride) (hc : p.count = 0) :
    p.model = [] := by
  unfold model
  rw [len_zero_of_count p hs hc]
  rfl

/-- Forward-step decomposition: with a slice-perfect positive state, the
model is the yielded base followed by the model of the successor state. -/
theorem model_next (p : IterPtr) (hs : 1 ≤ p.stride) (hp : p.Perfect)
    (hc : 0 < p.count) :
    p.model = p.base ::
      (IterPtr.mk (p.base + min p.stride p.count) (p.count - p.stride) p.stride).model := by
  obtain ⟨b, c, s⟩ := p
  simp only [len_mk, model_mk] at hs hc ⊢
  rcases Nat.lt_or_ge s c with hlt | hge
  · have hmin : min s c = s := by omega
    rw [hmin, lenF_sub c s hs hc, lenF_succ c s hs hc]
    simp only [Nat.add_sub_cancel]
    rw [List.range_succ_eq_map]
    simp only [List.map_cons, List.map_map, Nat.zero_mul, Nat.add_zero]
    congr 1
    apply List.map_congr_left
    intro i _
    simp only [Function.comp_apply, Nat.succ_eq_add_one]
    ring
  · have hcount : c = 1 := perfect_count_le b c s hs hp hc (by omega)
    subst hcount
    have hz : 1 - s = 0 := by omega
    rw [hz, lenF_zero s hs]
    have hl : (1 + (s - 1)) / s = 1 := by
      have he : 1 + (s - 1) = s := by omega
      rw [he, Nat.div_self (by omega)]
    rw [hl]
    rw [List.range_succ]
    simp

/-- Backward-step decomposition: with a slice-perfect positive state, the
model is the model of the successor state followed by the yielded last
address. -/
theorem model_next_back (p : IterPtr) (hs : 1 ≤ p.stride) (hp : p.Perfect)
    (hc : 0 < p.count) :
    p.model =
      (IterPtr.mk p.base (p.count - p.stride) p.stride).model
        ++ [p.base + (p.count - 1)] := by
  obtain ⟨b, c, s⟩ := p
  simp only [len_mk, model_mk] at hs hc ⊢
  have hlast : ((c - 1) / s) * s = c - 1 := by
    rw [perfect_iff] at hp
    simp only at hp
    rcases hp with h | h | h
    · omega
    · subst h; simp
    · have hdvd : s ∣ (c - 1) := by
        have hdm := Nat.div_add_mod c s
        exact ⟨c / s, by omega⟩
      exact Nat.div_mul_cancel hdvd
  rw [lenF_sub c s hs hc, lenF_succ c s hs hc]
  simp only [Nat.add_sub_cancel]
  rw [List.range_succ]
  simp only [List.map_append, List.map_cons, List.map_nil]
  congr 2
  rw [hlast]

/-- An exhausted cursor is inert: any further direction choices yield
nothing from either end and leave the state untouched. -/
theorem runDirs_exhausted (ds : List Bool) :
    ∀ p : IterPtr, p.count = 0 → runDirs p ds = ([], [], p) := by
  induction ds with
  | nil => intro p _; rfl
  | cons d ds ih =>
    intro p hc
    cases d <;>
      simp [runDirs, next_of_zero p hc, next_back_of_zero p hc, ih p hc]

/-- Simulation invariant: running a slice-perfect cursor by any direction
choices partitions its model into the forward yields, the model of the final
state, and the reversed backward yields. -/
theorem runDirs_partition (ds : List Bool) :
    ∀ p : IterPtr, 1 ≤ p.stride → p.Perfect →
      (runDirs p ds).2.2.Perfect ∧ (runDirs p ds).2.2.stride = p.stride ∧
      (runDirs p ds).1 ++ (runDirs p ds).2.2.model ++ (runDirs p ds).2.1.reverse
        = p.model := by
  induction ds with
  | nil =>
    intro p hs hp
    refine ⟨hp, rfl, by simp [runDirs]⟩
  | cons d ds ih =>
    intro p hs hp
    by_cases hc : 0 < p.count
    · obtain ⟨b, c, s⟩ := p
      simp only at hs hc
      cases d
      · have hq : (IterPtr.mk b (c - s) s).Perfect := perfect_sub_stride b b c s hp
        have hmodel := model_next_back ⟨b, c, s⟩ hs hp hc
        simp only at hmodel
        obtain ⟨ih1, ih2, ih3⟩ := ih ⟨b, (c - s), s⟩ hs hq
        simp only [runDirs, next_back_of_pos ⟨b, c, s⟩ hc]
        refine ⟨ih1, ih2, ?_⟩
        simp only [List.reverse_cons]
        rw [hmodel, ← ih3]
        simp [List.append_assoc]
      · have hq : (IterPtr.mk (b + min s c) (c - s) s).Perfect :=
          perfect_sub_stride b _ c s hp
        have hmodel := model_next ⟨b, c, s⟩ hs hp hc
        simp only at hmodel
        obtain ⟨ih1, ih2, ih3⟩ := ih ⟨b + min s c, (c - s), s⟩ hs hq
        simp only [runDirs, next_of_pos ⟨b, c, s⟩ hc]
        refine ⟨ih1, ih2, ?_⟩
        rw [hmodel, ← ih3]
        simp only [List.cons_append]
    · have hc0 : p.count = 0 := by omega
      rw [runDirs_exhausted (d :: ds) p hc0]
      refine ⟨hp, rfl, by simp [model_of_zero p hs hc0]⟩

/-- Counting invariant (no slice-perfect assumption): a run of `n` steps
yields `min len n` addresses in total, and the final length makes up the
difference. -/
theorem runDirs_count (ds : List Bool) :
    ∀ p : IterPtr, 1 ≤ p.stride →
      ((runDirs p ds).1.length + (runDirs p ds).2.1.length
          = min p.len ds.length) ∧
      ((runDirs p ds).2.2.len + min p.len ds.length = p.len) := by
  induction ds with
  | nil =>
    intro p hs
    simp [runDirs]
  | cons d ds ih =>
    intro p hs
    by_cases hc : 0 < p.count
    · obtain ⟨b, c, s⟩ := p
      simp only at hs hc
      have hlpos : 0 < (IterPtr.mk b c s).len := len_pos_of_count _ hs hc
      cases d
      · obtain ⟨ih1, ih2⟩ := ih ⟨b, c - s, s⟩ hs
        have hstep := len_step b b c s hs hc
        rw [hstep] at ih1 ih2
        simp only [runDirs, next_back_of_pos ⟨b, c, s⟩ hc, List.length_cons]
        omega
      · obtain ⟨ih1, ih2⟩ := ih ⟨b + min s c, c - s, s⟩ hs
        have hstep := len_step b (b + min s c) c s hs hc
        rw [hstep] at ih1 ih2
        simp only [runDirs, next_of_pos ⟨b, c, s⟩ hc, List.length_cons]
        omega
    · have hc0 : p.count = 0 := by omega
      have hl0 : p.len = 0 := len_zero_of_count p hs hc0
      rw [runDirs_exhausted (d :: ds) p hc0]
      simp [hl0]

/-- `len` is the ceiling of `count / stride`, characterized order-theoretically. -/
theorem len_ceil (p : IterPtr) (hs : 1 ≤ p.stride) :
    p.count ≤ p.stride * p.len ∧ p.stride * p.len < p.count + p.stride := by
  obtain ⟨b, c, s⟩ := p
  simp only at hs
  rw [len_mk]
  show c ≤ s * ((c + (s - 1)) / s) ∧ s * ((c + (s - 1)) / s) < c + s
  have hdm := Nat.div_add_mod (c + (s - 1)) s
  have hmod := Nat.mod_lt (c + (s - 1)) (show 0 < s by omega)
  omega

theorem model_length (p : IterPtr) : p.model.length = p.len := by
  simp [model]

theorem model_get (p : IterPtr) (i : Nat) (hi : i < p.model.length) :
    p.model.get ⟨i, hi⟩ = p.base + i * p.stride := by
  simp [model]

theorem model_chain (p : IterPtr) :
    List.Chain' (fun a b => b = a + p.stride) p.model := by
  rw [List.chain'_iff_get]
  intro i h
  rw [model_get, model_get]
  ring

theorem model_pairwise (p : IterPtr) (hs : 1 ≤ p.stride) :
    List.Pairwise (· < ·) p.model := by
  rw [List.pairwise_iff_get]
  intro i j hij
  rw [model_get, model_get]
  have hij2 : (i : ℕ) < (j : ℕ) := hij
  have := Nat.mul_lt_mul_of_lt_of_le hij2 (le_refl p.stride) (by omega)
  omega

/-- A pure-forward run yields no backward addresses. -/
theorem runDirs_forward_nil (n : Nat) :
    ∀ p : IterPtr, (runDirs p (List.replicate n true)).2.1 = [] := by
  induction n with
  | zero => intro p; rfl
  | succ n ih =>
    intro p
    by_cases hc : 0 < p.count
    · simp only [List.replicate_succ, runDirs, next_of_pos p hc]
      exact ih _
    · have hc0 : p.count = 0 := by omega
      rw [runDirs_exhausted _ p hc0]

/-- A pure-backward run yields no forward addresses. -/
theorem runDirs_backward_nil (n : Nat) :
    ∀ p : IterPtr, (runDirs p (List.replicate n false)).1 = [] := by
  induction n with
  | zero => intro p; rfl
  | succ n ih =>
    intro p
    by_cases hc : 0 < p.count
    · simp only [List.replicate_succ, runDirs, next_back_of_pos p hc]
      exact ih _
    · have hc0 : p.count = 0 := by omega
      rw [runDirs_exhausted _ p hc0]

/-- A long enough pure-forward run yields exactly the model, in order. -/
theorem runDirs_forward_all (p : IterPtr) (hs : 1 ≤ p.stride) (hp : p.Perfect)
    (n : Nat) (hn : p.len ≤ n) :
    (runDirs p (List.replicate n true)).1 = p.model := by
  obtain ⟨-, -, hpart⟩ := runDirs_partition (List.replicate n true) p hs hp
  obtain ⟨hcount, -⟩ := runDirs_count (List.replicate n true) p hs
  have hB := runDirs_forward_nil n p
  rw [hB] at hpart hcount
  simp only [List.length_nil, List.reverse_nil, List.append_nil,
    List.length_replicate] at hpart hcount
  have hmin : min p.len n = p.len := by omega
  rw [hmin] at hcount
  have hlen := congrArg List.length hpart
  simp only [List.length_append, model_length] at hlen
  have hmt : (runDirs p (List.replicate n true)).2.2.model = [] := by
    have hml := model_length (runDirs p (List.replicate n true)).2.2
    have hz : (runDirs p (List.replicate n true)).2.2.model.length = 0 := by omega
    exact List.eq_nil_of_length_eq_zero hz
  rw [hmt, List.append_nil] at hpart
  exact hpart

/-- Ordering facts about an arbitrary mixed run of a slice-perfect cursor:
forward yields step up by exactly the stride and are strictly increasing,
backward yields step down by exactly the stride and are strictly
decreasing, and every forward yield is below every backward yield. -/
theorem runDirs_ordering (ds : List Bool) (p : IterPtr) (hs : 1 ≤ p.stride)
    (hp : p.Perfect) :
    List.Chain' (fun a b => b = a + p.stride) (runDirs p ds).1 ∧
    List.Chain' (fun a b => a = b + p.stride) (runDirs p ds).2.1 ∧
    List.Pairwise (· < ·) (runDirs p ds).1 ∧
    List.Pairwise (fun a b => b < a) (runDirs p ds).2.1 ∧
    (∀ a ∈ (runDirs p ds).1, ∀ x ∈ (runDirs p ds).2.1, a < x) := by
  obtain ⟨-, -, hpart⟩ := runDirs_partition ds p hs hp
  rw [List.append_assoc] at hpart
  have hchain : List.Chain' (fun a b => b = a + p.stride)
      ((runDirs p ds).1 ++ ((runDirs p ds).2.2.model ++ (runDirs p ds).2.1.reverse)) := by
    rw [hpart]; exact model_chain p
  have hpw : List.Pairwise (· < ·)
      ((runDirs p ds).1 ++ ((runDirs p ds).2.2.model ++ (runDirs p ds).2.1.reverse)) := by
    rw [hpart]; exact model_pairwise p hs
  obtain ⟨hcF, hcR, -⟩ := List.chain'_append.mp hchain
  obtain ⟨-, hcB, -⟩ := List.chain'_append.mp hcR
  obtain ⟨hpF, hpR, hcross⟩ := List.pairwise_append.mp hpw
  obtain ⟨-, hpB, -⟩ := List.pairwise_append.mp hpR
  refine ⟨hcF, ?_, hpF, ?_, ?_⟩
  · exact List.chain'_reverse.mp hcB
  · exact List.pairwise_reverse.mp hpB
  · intro a ha x hx
    exact hcross a ha x (List.mem_append_right _ (List.mem_reverse.mpr hx))

end IterPtr

theorem IterPtrMut.next_toConst (p : IterPtrMut) :
    p.next = (p.toConst.next).map (fun x => (x.1, x.2.toMut)) := by
  cases p with
  | mk b c s =>
    by_cases h : 0 < c <;>
      simp [next, IterPtr.next, toConst, IterPtr.toMut, h]

theorem IterPtrMut.next_back_toConst (p : IterPtrMut) :
    p.next_back = (p.toConst.next_back).map (fun x => (x.1, x.2.toMut)) := by
  cases p with
  | mk b c s =>
    by_cases h : 0 < c <;>
      simp [next_back, IterPtr.next_back, toConst, IterPtr.toMut, h]

theorem IterPtrMut.len_toConst (p : IterPtrMut) : p.len = p.toConst.len := rfl

theorem IterPtr.toMut_toConst (p : IterPtr) : p.toMut.toConst = p := rfl

/-- A mutable cursor runs exactly like its shared counterpart. -/
theorem IterPtrMut.runDirs_toConst (ds : List Bool) :
    ∀ p : IterPtrMut,
      p.runDirs ds = ((IterPtr.runDirs p.toConst ds).1,
        (IterPtr.runDirs p.toConst ds).2.1,
        (IterPtr.runDirs p.toConst ds).2.2.toMut) := by
  induction ds with
  | nil => intro p; cases p; rfl
  | cons d ds ih =>
    intro p
    cases d
    · cases hm : p.toConst.next_back with
      | none =>
        have hmut : p.next_back = none := by
          rw [next_back_toConst, hm]; rfl
        simp only [runDirs, IterPtr.runDirs, hm, hmut]
        exact ih p
      | some a =>
        have hmut : p.next_back = some (a.1, a.2.toMut) := by
          rw [next_back_toConst, hm]; rfl
        simp only [runDirs, IterPtr.runDirs, hm, hmut]
        rw [ih a.2.toMut, IterPtr.toMut_toConst]
    · cases hm : p.toConst.next with
      | none =>
        have hmut : p.next = none := by
          rw [next_toConst, hm]; rfl
        simp only [runDirs, IterPtr.runDirs, hm, hmut]
        exact ih p
      | some a =>
        have hmut : p.next = some (a.1, a.2.toMut) := by
          rw [next_toConst, hm]; rfl
        simp only [runDirs, IterPtr.runDirs, hm, hmut]
        rw [ih a.2.toMut, IterPtr.toMut_toConst]

/-! ### Claim theorems about the raw cursors -/

/-- C1: for every RawCursor (`IterPtr` or `IterPtrMut`) with stride ≥ 1, if
the logical count is 0 then `next()` returns nothing; otherwise `next()`
returns the current first address, then advances the base by
`min(stride, count)` and sets the new count to `count.saturating_sub(stride)`. -/
theorem C1_rawcursor_next (p : IterPtr) (m : IterPtrMut)
    (hs : 1 ≤ p.stride) (hms : 1 ≤ m.stride) :
    ((p.count = 0 → p.next = none) ∧
      (0 < p.count → p.next = some (p.base,
        ⟨p.base + min p.stride p.count, p.count - p.stride, p.stride⟩))) ∧
    ((m.count = 0 → m.next = none) ∧
      (0 < m.count → m.next = some (m.base,
        ⟨m.base + min m.stride m.count, m.count - m.stride, m.stride⟩))) := by
  refine ⟨⟨fun h => IterPtr.next_of_zero p h, fun h => IterPtr.next_of_pos p h⟩,
    fun h => ?_, fun h => ?_⟩
  · simp [IterPtrMut.next, h]
  · simp [IterPtrMut.next, h]

theorem C1_witness :
    (IterPtr.next ⟨100, 7, 3⟩ = some (100, ⟨103, 4, 3⟩)) ∧
    (IterPtrMut.next ⟨50, 0, 5⟩ = none) :=
  ⟨(C1_rawcursor_next ⟨100, 7, 3⟩ ⟨50, 0, 5⟩ (by decide) (by decide)).1.2 (by decide),
    (C1_rawcursor_next ⟨100, 7, 3⟩ ⟨50, 0, 5⟩ (by decide) (by decide)).2.1 (by decide)⟩

/-- C2: for every RawCursor (`IterPtr` or `IterPtrMut`) with stride ≥ 1, if
the logical count is 0 then `next_back()` returns nothing; otherwise it
returns the address `base + (count - 1)`, then shrinks the count by the
stride (saturating at zero) while leaving the base unchanged. -/
theorem C2_rawcursor_next_back (p : IterPtr) (m : IterPtrMut)
    (hs : 1 ≤ p.stride) (hms : 1 ≤ m.stride) :
    ((p.count = 0 → p.next_back = none) ∧
      (0 < p.count → p.next_back = some (p.base + (p.count - 1),
        ⟨p.base, p.count - p.stride, p.stride⟩))) ∧
    ((m.count = 0 → m.next_back = none) ∧
      (0 < m.count → m.next_back = some (m.base + (m.count - 1),
        ⟨m.base, m.count - m.stride, m.stride⟩))) := by
  refine ⟨⟨fun h => IterPtr.next_back_of_zero p h,
    fun h => IterPtr.next_back_of_pos p h⟩, fun h => ?_, fun h => ?_⟩
  · simp [IterPtrMut.next_back, h]
  · simp [IterPtrMut.next_back, h]

theorem C2_witness :
    (IterPtr.next_back ⟨100, 7, 3⟩ = some (106, ⟨100, 4, 3⟩)) ∧
    (IterPtrMut.next_back ⟨50, 0, 5⟩ = none) :=
  ⟨(C2_rawcursor_next_back ⟨100, 7, 3⟩ ⟨50, 0, 5⟩ (by decide) (by decide)).1.2 (by decide),
    (C2_rawcursor_next_back ⟨100, 7, 3⟩ ⟨50, 0, 5⟩ (by decide) (by decide)).2.1 (by decide)⟩

/-- C3: for every RawCursor with count C and stride S ≥ 1, `len()` is
`ceil(C/S)` (characterized by `C ≤ S*len < C + S`), a long enough
pure-forward run yields exactly `len` addresses, every interleaving of
`next()`/`next_back()` yields `min len n` addresses over `n` steps (hence
exactly `ceil(C/S)` once both ends are exhausted), and the remaining `len`
after any run equals the initial `len` minus the number of yields.  The
same counting holds for the mutable cursor. -/
theorem C3_len_consumption (p : IterPtr) (m : IterPtrMut)
    (hs : 1 ≤ p.stride) (hms : 1 ≤ m.stride) :
    (p.count ≤ p.stride * p.len ∧ p.stride * p.len < p.count + p.stride) ∧
    (∀ n : Nat, p.len ≤ n →
      (IterPtr.runDirs p (List.replicate n true)).1.length = p.len) ∧
    (∀ ds : List Bool,
      (IterPtr.runDirs p ds).1.length + (IterPtr.runDirs p ds).2.1.length
        = min p.len ds.length ∧
      (IterPtr.runDirs p ds).2.2.len + min p.len ds.length = p.len) ∧
    (∀ ds : List Bool,
      (IterPtrMut.runDirs m ds).1.length + (IterPtrMut.runDirs m ds).2.1.length
        = min m.len ds.length) := by
  refine ⟨IterPtr.len_ceil p hs, ?_, ?_, ?_⟩
  · intro n hn
    obtain ⟨h1, -⟩ := IterPtr.runDirs_count (List.replicate n true) p hs
    rw [IterPtr.runDirs_forward_nil n p] at h1
    simp only [List.length_nil, List.length_replicate, Nat.add_zero] at h1
    omega
  · intro ds
    exact IterPtr.runDirs_count ds p hs
  · intro ds
    rw [IterPtrMut.runDirs_toConst ds m]
    obtain ⟨h1, -⟩ := IterPtr.runDirs_count ds m.toConst hms
    exact h1

theorem C3_witness :
    ((7 : Nat) ≤ 3 * IterPtr.len ⟨0, 7, 3⟩ ∧
      3 * IterPtr.len ⟨0, 7, 3⟩ < 7 + 3) ∧
    (∀ n : Nat, IterPtr.len ⟨0, 7, 3⟩ ≤ n →
      (IterPtr.runDirs ⟨0, 7, 3⟩ (List.replicate n true)).1.length
        = IterPtr.len ⟨0, 7, 3⟩) ∧
    (∀ ds : List Bool,
      (IterPtr.runDirs ⟨0, 7, 3⟩ ds).1.length
          + (IterPtr.runDirs ⟨0, 7, 3⟩ ds).2.1.length
        = min (IterPtr.len ⟨0, 7, 3⟩) ds.length ∧
      (IterPtr.runDirs ⟨0, 7, 3⟩ ds).2.2.len
          + min (IterPtr.len ⟨0, 7, 3⟩) ds.length = IterPtr.len ⟨0, 7, 3⟩) ∧
    (∀ ds : List Bool,
      (IterPtrMut.runDirs ⟨5, 4, 2⟩ ds).1.length
          + (IterPtrMut.runDirs ⟨5, 4, 2⟩ ds).2.1.length
        = min (IterPtrMut.len ⟨5, 4, 2⟩) ds.length) :=
  C3_len_consumption ⟨0, 7, 3⟩ ⟨5, 4, 2⟩ (by decide) (by decide)

/-- C8: for every slice-perfect RawCursor and every interleaving of
`next()`/`next_back()`, forward yields are strictly increasing and step up
by exactly the stride, backward yields are strictly decreasing and step
down by exactly the stride, every forward yield lies strictly below every
backward yield, and an exhausted cursor returns nothing forever from either
end. -/
theorem C8_mixed_ordering (p : IterPtr) (ds : List Bool)
    (hs : 1 ≤ p.stride) (hp : p.Perfect) :
    List.Chain' (fun a b => b = a + p.stride) (IterPtr.runDirs p ds).1 ∧
    List.Pairwise (· < ·) (IterPtr.runDirs p ds).1 ∧
    List.Chain' (fun a b => a = b + p.stride) (IterPtr.runDirs p ds).2.1 ∧
    List.Pairwise (fun a b => b < a) (IterPtr.runDirs p ds).2.1 ∧
    (∀ a ∈ (IterPtr.runDirs p ds).1, ∀ x ∈ (IterPtr.runDirs p ds).2.1, a < x) ∧
    ((IterPtr.runDirs p ds).2.2.count = 0 → ∀ es : List Bool,
      IterPtr.runDirs (IterPtr.runDirs p ds).2.2 es
        = ([], [], (IterPtr.runDirs p ds).2.2)) := by
  obtain ⟨h1, h2, h3, h4, h5⟩ := IterPtr.runDirs_ordering ds p hs hp
  exact ⟨h1, h3, h2, h4, h5,
    fun h es => IterPtr.runDirs_exhausted es _ h⟩

theorem C8_witness :
    List.Chain' (fun a b => b = a + (3 : Nat))
      (IterPtr.runDirs ⟨0, 7, 3⟩ [true, false, true]).1 ∧
    List.Pairwise (· < ·) (IterPtr.runDirs ⟨0, 7, 3⟩ [true, false, true]).1 ∧
    List.Chain' (fun a b => a = b + (3 : Nat))
      (IterPtr.runDirs ⟨0, 7, 3⟩ [true, false, true]).2.1 ∧
    List.Pairwise (fun a b => b < a)
      (IterPtr.runDirs ⟨0, 7, 3⟩ [true, false, true]).2.1 ∧
    (∀ a ∈ (IterPtr.runDirs ⟨0, 7, 3⟩ [true, false, true]).1,
      ∀ x ∈ (IterPtr.runDirs ⟨0, 7, 3⟩ [true, false, true]).2.1, a < x) ∧
    ((IterPtr.runDirs ⟨0, 7, 3⟩ [true, false, true]).2.2.count = 0 →
      ∀ es : List Bool,
        IterPtr.runDirs (IterPtr.runDirs ⟨0, 7, 3⟩ [true, false, true]).2.2 es
          = ([], [], (IterPtr.runDirs ⟨0, 7, 3⟩ [true, false, true]).2.2)) :=
  C8_mixed_ordering ⟨0, 7, 3⟩ [true, false, true] (by decide) (by decide)

/-- C9: the slice-perfect predicate is preserved by every single `next()`
or `next_back()` step of an `IterPtr` or `IterPtrMut` with stride ≥ 1, and
hence by any run of steps, so a cursor that starts slice-perfect stays
slice-perfect for its whole lifetime. -/
theorem C9_perfect_preserved (p : IterPtr) (m : IterPtrMut)
    (hs : 1 ≤ p.stride) (hp : p.Perfect)
    (hms : 1 ≤ m.stride) (hmp : m.Perfect) :
    (∀ a q, p.next = some (a, q) → q.Perfect) ∧
    (∀ a q, p.next_back = some (a, q) → q.Perfect) ∧
    (∀ ds : List Bool, (IterPtr.runDirs p ds).2.2.Perfect) ∧
    (∀ a q, m.next = some (a, q) → q.Perfect) ∧
    (∀ a q, m.next_back = some (a, q) → q.Perfect) := by
  obtain ⟨b, c, s⟩ := p
  obtain ⟨mb, mc, ms⟩ := m
  refine ⟨?_, ?_, ?_, ?_, ?_⟩
  · intro a q h
    by_cases hc : 0 < c
    · rw [IterPtr.next_of_pos _ hc] at h
      obtain ⟨-, rfl⟩ := Prod.mk.injEq .. ▸ Option.some.injEq .. ▸ h
      exact IterPtr.perfect_sub_stride b _ c s hp
    · rw [IterPtr.next_of_zero _ (show c = 0 by omega)] at h
      exact absurd h (by simp)
  · intro a q h
    by_cases hc : 0 < c
    · rw [IterPtr.next_back_of_pos _ hc] at h
      obtain ⟨-, rfl⟩ := Prod.mk.injEq .. ▸ Option.some.injEq .. ▸ h
      exact IterPtr.perfect_sub_stride b _ c s hp
    · rw [IterPtr.next_back_of_zero _ (show c = 0 by omega)] at h
      exact absurd h (by simp)
  · intro ds
    exact (IterPtr.runDirs_partition ds _ hs hp).1
  · intro a q h
    by_cases hc : 0 < mc
    · simp only [IterPtrMut.next, hc, if_pos] at h
      obtain ⟨-, rfl⟩ := Prod.mk.injEq .. ▸ Option.some.injEq .. ▸ h
      exact IterPtr.perfect_sub_stride mb 0 mc ms hmp
    · simp [IterPtrMut.next, show ¬ (0 < mc) from hc] at h
  · intro a q h
    by_cases hc : 0 < mc
    · simp only [IterPtrMut.next_back, hc, if_pos] at h
      obtain ⟨-, rfl⟩ := Prod.mk.injEq .. ▸ Option.some.injEq .. ▸ h
      exact IterPtr.perfect_sub_stride mb 0 mc ms hmp
    · simp [IterPtrMut.next_back, show ¬ (0 < mc) from hc] at h

theorem C9_witness :
    (∀ a q, IterPtr.next ⟨0, 7, 3⟩ = some (a, q) → q.Perfect) ∧
    (∀ a q, IterPtr.next_back ⟨0, 7, 3⟩ = some (a, q) → q.Perfect) ∧
    (∀ ds : List Bool, (IterPtr.runDirs ⟨0, 7, 3⟩ ds).2.2.Perfect) ∧
    (∀ a q, IterPtrMut.next ⟨5, 9, 4⟩ = some (a, q) → q.Perfect) ∧
    (∀ a q, IterPtrMut.next_back ⟨5, 9, 4⟩ = some (a, q) → q.Perfect) :=
  C9_perfect_preserved ⟨0, 7, 3⟩ ⟨5, 9, 4⟩ (by decide) (by decide)
    (by decide) (by decide)

/-- C10: for every buffer view with height ≥ 1, `assert_slice_enough`
panics exactly when the backing slice is shorter than
`stride*(height-1)+width` or the width exceeds the stride; a too-short
backing store panics `tooShort` with priority over the width check; a
width greater than the stride is rejected even when the backing store is
long enough; and a panicking verdict propagates to every checked
row/col constructor that invokes the check. -/
theorem C10_bounds_check (buf : Img) (hh : 1 ≤ buf.height) :
    (assert_slice_enough buf ≠ none ↔
      (buf.bufLen < buf.stride * (buf.height - 1) + buf.width ∨
        buf.stride < buf.width)) ∧
    (buf.bufLen < buf.stride * (buf.height - 1) + buf.width →
      assert_slice_enough buf = some Panic.tooShort) ∧
    (buf.stride * (buf.height - 1) + buf.width ≤ buf.bufLen →
      buf.stride < buf.width →
      assert_slice_enough buf = some Panic.widthGtStride) ∧
    (∀ r k, assert_slice_enough buf = some k →
      IterPtr.row_ptr buf r = .error k) ∧
    (∀ c k, assert_slice_enough buf = some k →
      IterPtr.col_ptr buf c = .error k) ∧
    (∀ r k, assert_slice_enough buf = some k →
      IterPtrMut.row_ptr buf r = .error k) ∧
    (∀ c k, assert_slice_enough buf = some k →
      IterPtrMut.col_ptr buf c = .error k) := by
  by_cases h1 : buf.bufLen < buf.stride * (buf.height - 1) + buf.width
  · have ha : assert_slice_enough buf = some Panic.tooShort := by
      unfold assert_slice_enough
      simp [h1]
    simp [ha, h1, IterPtr.row_ptr, IterPtr.col_ptr,
      IterPtrMut.row_ptr, IterPtrMut.col_ptr]
  · by_cases h2 : buf.stride < buf.width
    · have ha : assert_slice_enough buf = some Panic.widthGtStride := by
        unfold assert_slice_enough
        simp [h1, h2]
      simp [ha, h1, h2, IterPtr.row_ptr, IterPtr.col_ptr,
        IterPtrMut.row_ptr, IterPtrMut.col_ptr]
    · have ha : assert_slice_enough buf = none := by
        unfold assert_slice_enough
        simp [h1, h2]
      simp [ha, h1, h2]

theorem C10_witness :
    (assert_slice_enough ⟨0, 3, 2, 2, 2⟩ ≠ none ↔
      ((3 : Nat) < 2 * (2 - 1) + 2 ∨ (2 : Nat) < 2)) ∧
    ((3 : Nat) < 2 * (2 - 1) + 2 →
      assert_slice_enough ⟨0, 3, 2, 2, 2⟩ = some Panic.tooShort) ∧
    (2 * (2 - 1) + 2 ≤ (3 : Nat) → (2 : Nat) < 2 →
      assert_slice_enough ⟨0, 3, 2, 2, 2⟩ = some Panic.widthGtStride) ∧
    (∀ r k, assert_slice_enough ⟨0, 3, 2, 2, 2⟩ = some k →
      IterPtr.row_ptr ⟨0, 3, 2, 2, 2⟩ r = .error k) ∧
    (∀ c k, assert_slice_enough ⟨0, 3, 2, 2, 2⟩ = some k →
      IterPtr.col_ptr ⟨0, 3, 2, 2, 2⟩ c = .error k) ∧
    (∀ r k, assert_slice_enough ⟨0, 3, 2, 2, 2⟩ = some k →
      IterPtrMut.row_ptr ⟨0, 3, 2, 2, 2⟩ r = .error k) ∧
    (∀ c k, assert_slice_enough ⟨0, 3, 2, 2, 2⟩ = some k →
      IterPtrMut.col_ptr ⟨0, 3, 2, 2, 2⟩ c = .error k) :=
  C10_bounds_check ⟨0, 3, 2, 2, 2⟩ (by decide)

/-- C5 counterexample: over the buffer (base 0, backing length 3, width 2,
height 2, stride 2), whose backing store is one element short of the
`stride*(height-1)+width = 4` it needs, `IterRowsPtr::new` succeeds —
construction performs no bounds validation — and the very first `next()`
then performs the backing-store bounds check and fails it.  This refutes
the claim that validation happens once at construction and that a
successfully constructed sequence can never fail the bounds check while
stepping. -/
theorem C5_counterexample :
    IterRowsPtr.new ⟨0, 3, 2, 2, 2⟩ = ⟨⟨0, 3, 2, 2, 2⟩, 0, 2⟩ ∧
    IterRowsPtr.next (IterRowsPtr.new ⟨0, 3, 2, 2, 2⟩)
      = .error Panic.tooShort :=
  ⟨rfl, rfl⟩

/-- C5 (amended): for the rows/cols window sequences the bounds validation
runs on every step, not at construction: the constructors store the buffer
and index range without validating anything, every non-exhausted
`next()`/`next_back()` re-runs `assert_slice_enough` — panicking with
exactly its verdict, or yielding the row/column cursor when the check
passes — and an exhausted sequence steps to `none` without validating. -/
theorem C5_validation_per_step (buf : Img) (lo hi : Nat) :
    (IterRowsPtr.new buf = ⟨buf, 0, buf.height⟩ ∧
      IterColsPtr.new buf = ⟨buf, 0, buf.width⟩ ∧
      IterRowsPtrMut.new buf = ⟨buf, 0, buf.height⟩ ∧
      IterColsPtrMut.new buf = ⟨buf, 0, buf.width⟩) ∧
    (lo < hi → hi ≤ buf.height →
      IterRowsPtr.next ⟨buf, lo, hi⟩ =
        (match assert_slice_enough buf with
          | some k => .error k
          | none =>
            .ok (some (IterPtr.row_ptr_unchecked buf lo, ⟨buf, lo + 1, hi⟩))) ∧
      IterRowsPtr.next_back ⟨buf, lo, hi⟩ =
        (match assert_slice_enough buf with
          | some k => .error k
          | none =>
            .ok (some (IterPtr.row_ptr_unchecked buf (hi - 1), ⟨buf, lo, hi - 1⟩))) ∧
      IterRowsPtrMut.next ⟨buf, lo, hi⟩ =
        (match assert_slice_enough buf with
          | some k => .error k
          | none => .ok (some (⟨buf.base + lo * buf.stride, buf.width, 1⟩,
              ⟨buf, lo + 1, hi⟩))) ∧
      IterRowsPtrMut.next_back ⟨buf, lo, hi⟩ =
        (match assert_slice_enough buf with
          | some k => .error k
          | none => .ok (some (⟨buf.base + (hi - 1) * buf.stride, buf.width, 1⟩,
              ⟨buf, lo, hi - 1⟩)))) ∧
    (lo < hi → hi ≤ buf.width →
      IterColsPtr.next ⟨buf, lo, hi⟩ =
        (match assert_slice_enough buf with
          | some k => .error k
          | none =>
            .ok (some (IterPtr.col_ptr_unchecked buf lo, ⟨buf, lo + 1, hi⟩))) ∧
      IterColsPtr.next_back ⟨buf, lo, hi⟩ =
        (match assert_slice_enough buf with
          | some k => .error k
          | none =>
            .ok (some (IterPtr.col_ptr_unchecked buf (hi - 1), ⟨buf, lo, hi - 1⟩))) ∧
      IterColsPtrMut.next ⟨buf, lo, hi⟩ =
        (match assert_slice_enough buf with
          | some k => .error k
          | none => .ok (some (⟨buf.base + lo,
              buf.stride * (buf.height - 1) + 1, buf.stride⟩, ⟨buf, lo + 1, hi⟩))) ∧
      IterColsPtrMut.next_back ⟨buf, lo, hi⟩ =
        (match assert_slice_enough buf with
          | some k => .error k
          | none => .ok (some (⟨buf.base + (hi - 1),
              buf.stride * (buf.height - 1) + 1, buf.stride⟩, ⟨buf, lo, hi - 1⟩)))) ∧
    (¬ lo < hi →
      IterRowsPtr.next ⟨buf, lo, hi⟩ = .ok none ∧
      IterRowsPtr.next_back ⟨buf, lo, hi⟩ = .ok none ∧
      IterColsPtr.next ⟨buf, lo, hi⟩ = .ok none ∧
      IterColsPtr.next_back ⟨buf, lo, hi⟩ = .ok none ∧
      IterRowsPtrMut.next ⟨buf, lo, hi⟩ = .ok none ∧
      IterRowsPtrMut.next_back ⟨buf, lo, hi⟩ = .ok none ∧
      IterColsPtrMut.next ⟨buf, lo, hi⟩ = .ok none ∧
      IterColsPtrMut.next_back ⟨buf, lo, hi⟩ = .ok none) := by
  refine ⟨⟨rfl, rfl, rfl, rfl⟩, ?_, ?_, ?_⟩
  · intro hlh hhh
    have hlo : lo < buf.height := by omega
    have hhi : hi - 1 < buf.height := by omega
    unfold IterRowsPtr.next IterRowsPtr.next_back
      IterRowsPtrMut.next IterRowsPtrMut.next_back
      IterPtr.row_ptr IterPtrMut.row_ptr
    cases assert_slice_enough buf with
    | none => simp [hlh, hlo, hhi, Except.map]
    | some k => simp [hlh, Except.map]
  · intro hlh hhw
    have hlo : lo < buf.width := by omega
    have hhi : hi - 1 < buf.width := by omega
    unfold IterColsPtr.next IterColsPtr.next_back
      IterColsPtrMut.next IterColsPtrMut.next_back
      IterPtr.col_ptr IterPtrMut.col_ptr
    cases assert_slice_enough buf with
    | none => simp [hlh, hlo, hhi, Except.map]
    | some k => simp [hlh, Except.map]
  · intro hlh
    unfold IterRowsPtr.next IterRowsPtr.next_back
      IterColsPtr.next IterColsPtr.next_back
      IterRowsPtrMut.next IterRowsPtrMut.next_back
      IterColsPtrMut.next IterColsPtrMut.next_back
    simp [hlh]

theorem C5_witness :
    ((3 : Nat) < 4 ∧ (4 : Nat) ≤ 4) ∧
    (IterRowsPtr.next ⟨⟨0, 50, 3, 4, 3⟩, 3, 4⟩ =
      (match assert_slice_enough ⟨0, 50, 3, 4, 3⟩ with
        | some k => .error k
        | none => .ok (some (IterPtr.row_ptr_unchecked ⟨0, 50, 3, 4, 3⟩ 3,
            ⟨⟨0, 50, 3, 4, 3⟩, 4, 4⟩)))) :=
  ⟨⟨by decide, by decide⟩,
    ((C5_validation_per_step ⟨0, 50, 3, 4, 3⟩ 3 4).2.1 (by decide) (by decide)).1⟩

/-- C4: for a buffer with base `b`, width W, height H, stride ST ≥ 1, the
row-R cursor (R < H) yields exactly the addresses `b + ST*R + i` for
`i < W` in increasing order, and the column-C cursor (C < W) yields exactly
the addresses `b + C + ST*j` for `j < H` in increasing order; the column
cursor's `len()` before consumption is H. -/
theorem C4_row_col_cursors (buf : Img) (R C : Nat)
    (hR : R < buf.height) (hC : C < buf.width) (hst : 1 ≤ buf.stride) :
    (IterPtr.runDirs (IterPtr.row_ptr_unchecked buf R)
        (List.replicate buf.width true)).1
      = (List.range buf.width).map (fun i => buf.base + buf.stride * R + i) ∧
    (IterPtr.runDirs (IterPtr.col_ptr_unchecked buf C)
        (List.replicate buf.height true)).1
      = (List.range buf.height).map (fun j => buf.base + C + buf.stride * j) ∧
    (IterPtr.col_ptr_unchecked buf C).len = buf.height := by
  obtain ⟨b, n, W, H, ST⟩ := buf
  simp only [IterPtr.row_ptr_unchecked, IterPtr.col_ptr_unchecked] at *
  have hcol_len : (IterPtr.mk (b + C) (ST * (H - 1) + 1) ST).len = H := by
    rw [IterPtr.len_mk]
    have h1 : ST * (H - 1) + 1 + (ST - 1) = ST * H := by
      have h2 : ST * (H - 1) + 1 + (ST - 1) = ST * (H - 1) + ST := by omega
      have h3 : ST * (H - 1) + ST = ST * (H - 1 + 1) := by ring
      have h4 : H - 1 + 1 = H := by omega
      rw [h2, h3, h4]
    rw [h1, Nat.mul_div_cancel_left H (by omega)]
  refine ⟨?_, ?_, hcol_len⟩
  · have hrowlen : (IterPtr.mk (b + R * ST) W 1).len = W := by
      rw [IterPtr.len_mk]
      simp
    have hperf : (IterPtr.mk (b + R * ST) W 1).Perfect := by
      rw [IterPtr.perfect_iff]
      right; left; rfl
    have hall := IterPtr.runDirs_forward_all ⟨b + R * ST, W, 1⟩
      (Nat.le_refl 1) hperf W (le_of_eq hrowlen)
    rw [hall, IterPtr.model_mk]
    have hW : (W + (1 - 1)) / 1 = W := by simp
    rw [hW]
    apply List.map_congr_left
    intro i _
    ring
  · have hperf : (IterPtr.mk (b + C) (ST * (H - 1) + 1) ST).Perfect := by
      rw [IterPtr.perfect_iff]
      by_cases hst1 : ST = 1
      · right; left; exact hst1
      · right; right
        show (ST * (H - 1) + 1) % ST = 1
        rw [Nat.mul_add_mod]
        exact Nat.mod_eq_of_lt (by omega)
    have hall := IterPtr.runDirs_forward_all ⟨b + C, ST * (H - 1) + 1, ST⟩
      hst hperf H (le_of_eq hcol_len)
    rw [hall, IterPtr.model_mk]
    have hH : (ST * (H - 1) + 1 + (ST - 1)) / ST = H := by
      rw [← IterPtr.len_mk (b + C)]
      exact hcol_len
    rw [hH]
    apply List.map_congr_left
    intro j _
    ring

theorem C4_witness :
    ((1 : Nat) < 3 ∧ (1 : Nat) < 4 ∧ (1 : Nat) ≤ 5) ∧
    ((IterPtr.runDirs (IterPtr.row_ptr_unchecked ⟨0, 15, 4, 3, 5⟩ 1)
        (List.replicate 4 true)).1
      = (List.range 4).map (fun i => 0 + 5 * 1 + i) ∧
    (IterPtr.runDirs (IterPtr.col_ptr_unchecked ⟨0, 15, 4, 3, 5⟩ 1)
        (List.replicate 3 true)).1
      = (List.range 3).map (fun j => 0 + 1 + 5 * j) ∧
    (IterPtr.col_ptr_unchecked ⟨0, 15, 4, 3, 5⟩ 1).len = 3) :=
  ⟨⟨by decide, by decide, by decide⟩,
    C4_row_col_cursors ⟨0, 15, 4, 3, 5⟩ 1 1 (by decide) (by decide) (by decide)⟩

/-- A lane group runs in lockstep with its inner cursor: every yield is the
expansion of the inner yield, and the final inner state is the inner run's
final state. -/
theorem SimdIterPtr.runDirs_inner (LANES : Nat) (ds : List Bool) :
    ∀ s : SimdIterPtr,
      SimdIterPtr.runDirs LANES s ds
        = ((IterPtr.runDirs s.inner ds).1.map
            (fun a => (List.range LANES).map (fun i => a + s.gap * i)),
          (IterPtr.runDirs s.inner ds).2.1.map
            (fun a => (List.range LANES).map (fun i => a + s.gap * i)),
          ⟨(IterPtr.runDirs s.inner ds).2.2, s.gap⟩) := by
  induction ds with
  | nil => intro s; cases s; rfl
  | cons d ds ih =>
    intro s
    cases d
    · cases hm : s.inner.next_back with
      | none =>
        have hn : SimdIterPtr.next_back LANES s = none := by
          rw [next_back, hm]; rfl
        simp only [runDirs, IterPtr.runDirs, hm, hn]
        exact ih s
      | some a =>
        have hn : SimdIterPtr.next_back LANES s
            = some (s.expand LANES a.1, ⟨a.2, s.gap⟩) := by
          rw [next_back, hm]; rfl
        simp only [runDirs, IterPtr.runDirs, hm, hn]
        rw [ih ⟨a.2, s.gap⟩]
        rfl
    · cases hm : s.inner.next with
      | none =>
        have hn : SimdIterPtr.next LANES s = none := by
          rw [next, hm]; rfl
        simp only [runDirs, IterPtr.runDirs, hm, hn]
        exact ih s
      | some a =>
        have hn : SimdIterPtr.next LANES s
            = some (s.expand LANES a.1, ⟨a.2, s.gap⟩) := by
          rw [next, hm]; rfl
        simp only [runDirs, IterPtr.runDirs, hm, hn]
        rw [ih ⟨a.2, s.gap⟩]
        rfl

/-- The mutable lane group runs in lockstep with its inner cursor. -/
theorem SimdIterPtrMut.runDirs_inner_mut (LANES : Nat) (ds : List Bool) :
    ∀ s : SimdIterPtrMut,
      SimdIterPtrMut.runDirs LANES s ds
        = ((IterPtrMut.runDirs s.inner ds).1.map
            (fun a => (List.range LANES).map (fun i => a + s.gap * i)),
          (IterPtrMut.runDirs s.inner ds).2.1.map
            (fun a => (List.range LANES).map (fun i => a + s.gap * i)),
          ⟨(IterPtrMut.runDirs s.inner ds).2.2, s.gap⟩) := by
  induction ds with
  | nil => intro s; cases s; rfl
  | cons d ds ih =>
    intro s
    cases d
    · cases hm : s.inner.next_back with
      | none =>
        have hn : SimdIterPtrMut.next_back LANES s = none := by
          rw [next_back, hm]; rfl
        simp only [runDirs, IterPtrMut.runDirs, hm, hn]
        exact ih s
      | some a =>
        have hn : SimdIterPtrMut.next_back LANES s
            = some (s.expand LANES a.1, ⟨a.2, s.gap⟩) := by
          rw [next_back, hm]; rfl
        simp only [runDirs, IterPtrMut.runDirs, hm, hn]
        rw [ih ⟨a.2, s.gap⟩]
        rfl
    · cases hm : s.inner.next with
      | none =>
        have hn : SimdIterPtrMut.next LANES s = none := by
          rw [next, hm]; rfl
        simp only [runDirs, IterPtrMut.runDirs, hm, hn]
        exact ih s
      | some a =>
        have hn : SimdIterPtrMut.next LANES s
            = some (s.expand LANES a.1, ⟨a.2, s.gap⟩) := by
          rw [next, hm]; rfl
        simp only [runDirs, IterPtrMut.runDirs, hm, hn]
        rw [ih ⟨a.2, s.gap⟩]
        rfl

/-- C7: a lane group (`SimdIterPtr` or `SimdIterPtrMut`) with gap G over an
inner RawCursor turns every address `a` the inner cursor would yield — from
either end — into the array `[a, a+G, ..., a+(LANES-1)*G]`, exhausts
exactly when the inner cursor does, reports the inner `len()`, and over any
interleaving of steps yields exactly the expansions of the inner cursor's
yields with the same final inner state. -/
theorem C7_lane_group (LANES : Nat) (s : SimdIterPtr) (m : SimdIterPtrMut) :
    (∀ a t, s.inner.next = some (a, t) →
      SimdIterPtr.next LANES s
        = some ((List.range LANES).map (fun i => a + s.gap * i), ⟨t, s.gap⟩)) ∧
    (s.inner.next = none → SimdIterPtr.next LANES s = none) ∧
    (∀ a t, s.inner.next_back = some (a, t) →
      SimdIterPtr.next_back LANES s
        = some ((List.range LANES).map (fun i => a + s.gap * i), ⟨t, s.gap⟩)) ∧
    (s.inner.next_back = none → SimdIterPtr.next_back LANES s = none) ∧
    SimdIterPtr.len s = s.inner.len ∧
    (∀ ds : List Bool,
      SimdIterPtr.runDirs LANES s ds
        = ((IterPtr.runDirs s.inner ds).1.map
            (fun a => (List.range LANES).map (fun i => a + s.gap * i)),
          (IterPtr.runDirs s.inner ds).2.1.map
            (fun a => (List.range LANES).map (fun i => a + s.gap * i)),
          ⟨(IterPtr.runDirs s.inner ds).2.2, s.gap⟩)) ∧
    (∀ a t, m.inner.next = some (a, t) →
      SimdIterPtrMut.next LANES m
        = some ((List.range LANES).map (fun i => a + m.gap * i), ⟨t, m.gap⟩)) ∧
    (m.inner.next = none → SimdIterPtrMut.next LANES m = none) ∧
    (∀ a t, m.inner.next_back = some (a, t) →
      SimdIterPtrMut.next_back LANES m
        = some ((List.range LANES).map (fun i => a + m.gap * i), ⟨t, m.gap⟩)) ∧
    (m.inner.next_back = none → SimdIterPtrMut.next_back LANES m = none) ∧
    SimdIterPtrMut.len m = m.inner.len ∧
    (∀ ds : List Bool,
      SimdIterPtrMut.runDirs LANES m ds
        = ((IterPtrMut.runDirs m.inner ds).1.map
            (fun a => (List.range LANES).map (fun i => a + m.gap * i)),
          (IterPtrMut.runDirs m.inner ds).2.1.map
            (fun a => (List.range LANES).map (fun i => a + m.gap * i)),
          ⟨(IterPtrMut.runDirs m.inner ds).2.2, m.gap⟩)) := by
  refine ⟨?_, ?_, ?_, ?_, rfl, fun ds => SimdIterPtr.runDirs_inner LANES ds s,
    ?_, ?_, ?_, ?_, rfl, fun ds => SimdIterPtrMut.runDirs_inner_mut LANES ds m⟩
  · intro a t h
    rw [SimdIterPtr.next, h]
    rfl
  · intro h
    rw [SimdIterPtr.next, h]
    rfl
  · intro a t h
    rw [SimdIterPtr.next_back, h]
    rfl
  · intro h
    rw [SimdIterPtr.next_back, h]
    rfl
  · intro a t h
    rw [SimdIterPtrMut.next, h]
    rfl
  · intro h
    rw [SimdIterPtrMut.next, h]
    rfl
  · intro a t h
    rw [SimdIterPtrMut.next_back, h]
    rfl
  · intro h
    rw [SimdIterPtrMut.next_back, h]
    rfl

theorem C7_witness :
    SimdIterPtr.next 4 ⟨⟨10, 7, 3⟩, 5⟩
      = some ((List.range 4).map (fun i => 10 + 5 * i), ⟨⟨13, 4, 3⟩, 5⟩) :=
  (C7_lane_group 4 ⟨⟨10, 7, 3⟩, 5⟩ ⟨⟨20, 0, 2⟩, 6⟩).1 10 ⟨13, 4, 3⟩ (by decide)

namespace SimdIterWindowsPtr

theorem next_batch (LANES : Nat) (s : SimdIterWindowsPtr)
    (hperf : is_slice_perfect s.winLen s.sliceStride = true)
    (hb : LANES ≤ s.hi - s.lo) :
    next LANES s = .ok (some
      (.Simd ⟨⟨s.base + s.lo * s.iterStride, s.winLen, s.sliceStride⟩, s.iterStride⟩,
        ⟨s.base, s.winLen, s.sliceStride, s.iterStride, s.lo + LANES, s.hi⟩)) := by
  unfold next IterPtr.newChecked
  rw [if_pos hb, if_pos hperf]
  rfl

theorem next_single (LANES : Nat) (s : SimdIterWindowsPtr)
    (hperf : is_slice_perfect s.winLen s.sliceStride = true)
    (hlt : s.hi - s.lo < LANES) (hpos : s.lo < s.hi) :
    next LANES s = .ok (some
      (.Single ⟨s.base + s.lo * s.iterStride, s.winLen, s.sliceStride⟩,
        ⟨s.base, s.winLen, s.sliceStride, s.iterStride, s.lo + 1, s.hi⟩)) := by
  unfold next IterPtr.newChecked
  rw [if_neg (by omega), if_pos hpos, if_pos hperf]
  rfl

theorem next_exhausted (LANES : Nat) (s : SimdIterWindowsPtr)
    (hL : 1 ≤ LANES) (hz : s.hi - s.lo = 0) :
    next LANES s = .ok none := by
  unfold next
  rw [if_neg (by omega), if_neg (by omega)]

theorem next_back_batch (LANES : Nat) (s : SimdIterWindowsPtr)
    (hperf : is_slice_perfect s.winLen s.sliceStride = true)
    (hb : LANES ≤ s.hi - s.lo) :
    next_back LANES s = .ok (some
      (.Simd ⟨⟨s.base + (s.hi - LANES) * s.iterStride, s.winLen, s.sliceStride⟩,
          s.iterStride⟩,
        ⟨s.base, s.winLen, s.sliceStride, s.iterStride, s.lo, s.hi - LANES⟩)) := by
  unfold next_back IterPtr.newChecked
  rw [if_pos hb, if_pos hperf]
  rfl

theorem next_back_single (LANES : Nat) (s : SimdIterWindowsPtr)
    (hperf : is_slice_perfect s.winLen s.sliceStride = true)
    (hlt : s.hi - s.lo < LANES) (hpos : s.lo < s.hi) :
    next_back LANES s = .ok (some
      (.Single ⟨s.base + (s.hi - 1) * s.iterStride, s.winLen, s.sliceStride⟩,
        ⟨s.base, s.winLen, s.sliceStride, s.iterStride, s.lo, s.hi - 1⟩)) := by
  unfold next_back IterPtr.newChecked
  rw [if_neg (by omega), if_pos hpos, if_pos hperf]
  rfl

theorem next_back_exhausted (LANES : Nat) (s : SimdIterWindowsPtr)
    (hL : 1 ≤ LANES) (hz : s.hi - s.lo = 0) :
    next_back LANES s = .ok none := by
  unfold next_back
  rw [if_neg (by omega), if_neg (by omega)]

theorem runF_counts (LANES : Nat) (hL : 1 ≤ LANES) :
    ∀ (fuel : Nat) (s : SimdIterWindowsPtr),
      is_slice_perfect s.winLen s.sliceStride = true →
      s.hi - s.lo ≤ fuel →
      runF LANES fuel s = .ok ((s.hi - s.lo) / LANES, (s.hi - s.lo) % LANES) := by
  intro fuel
  induction fuel with
  | zero =>
    intro s hperf hle
    have hz : s.hi - s.lo = 0 := by omega
    rw [hz]
    simp [runF]
  | succ fuel ih =>
    intro s hperf hle
    by_cases hb : LANES ≤ s.hi - s.lo
    · have ih2 := ih ⟨s.base, s.winLen, s.sliceStride, s.iterStride,
        s.lo + LANES, s.hi⟩ hperf (show s.hi - (s.lo + LANES) ≤ fuel by omega)
      simp only [runF, next_batch LANES s hperf hb, ih2, Except.map]
      have h1 : s.hi - s.lo = (s.hi - (s.lo + LANES)) + LANES := by omega
      rw [h1, Nat.add_div_right _ (by omega), Nat.add_mod_right]
    · by_cases hpos : s.lo < s.hi
      · have ih2 := ih ⟨s.base, s.winLen, s.sliceStride, s.iterStride,
          s.lo + 1, s.hi⟩ hperf (show s.hi - (s.lo + 1) ≤ fuel by omega)
        simp only [runF, next_single LANES s hperf (by omega) hpos, ih2, Except.map]
        have e1 : s.hi - (s.lo + 1) = s.hi - s.lo - 1 := by omega
        have e2 : (s.hi - s.lo - 1) / LANES = 0 := Nat.div_eq_of_lt (by omega)
        have e3 : (s.hi - s.lo - 1) % LANES = s.hi - s.lo - 1 :=
          Nat.mod_eq_of_lt (by omega)
        have e4 : (s.hi - s.lo) / LANES = 0 := Nat.div_eq_of_lt (by omega)
        have e5 : (s.hi - s.lo) % LANES = s.hi - s.lo := Nat.mod_eq_of_lt (by omega)
        rw [e1, e2, e3, e4, e5]
        have e6 : s.hi - s.lo - 1 + 1 = s.hi - s.lo := by omega
        rw [e6]
      · have hz : s.hi - s.lo = 0 := by omega
        rw [hz]
        simp [runF, next_exhausted LANES s hL hz]

theorem runB_counts (LANES : Nat) (hL : 1 ≤ LANES) :
    ∀ (fuel : Nat) (s : SimdIterWindowsPtr),
      is_slice_perfect s.winLen s.sliceStride = true →
      s.hi - s.lo ≤ fuel →
      runB LANES fuel s = .ok ((s.hi - s.lo) / LANES, (s.hi - s.lo) % LANES) := by
  intro fuel
  induction fuel with
  | zero =>
    intro s hperf hle
    have hz : s.hi - s.lo = 0 := by omega
    rw [hz]
    simp [runB]
  | succ fuel ih =>
    intro s hperf hle
    by_cases hb : LANES ≤ s.hi - s.lo
    · have ih2 := ih ⟨s.base, s.winLen, s.sliceStride, s.iterStride,
        s.lo, s.hi - LANES⟩ hperf (show s.hi - LANES - s.lo ≤ fuel by omega)
      simp only [runB, next_back_batch LANES s hperf hb, ih2, Except.map]
      have h1 : s.hi - s.lo = (s.hi - LANES - s.lo) + LANES := by omega
      rw [h1, Nat.add_div_right _ (by omega), Nat.add_mod_right]
    · by_cases hpos : s.lo < s.hi
      · have ih2 := ih ⟨s.base, s.winLen, s.sliceStride, s.iterStride,
          s.lo, s.hi - 1⟩ hperf (show s.hi - 1 - s.lo ≤ fuel by omega)
        simp only [runB, next_back_single LANES s hperf (by omega) hpos, ih2,
          Except.map]
        have e1 : s.hi - 1 - s.lo = s.hi - s.lo - 1 := by omega
        have e2 : (s.hi - s.lo - 1) / LANES = 0 := Nat.div_eq_of_lt (by omega)
        have e3 : (s.hi - s.lo - 1) % LANES = s.hi - s.lo - 1 :=
          Nat.mod_eq_of_lt (by omega)
        have e4 : (s.hi - s.lo) / LANES = 0 := Nat.div_eq_of_lt (by omega)
        have e5 : (s.hi - s.lo) % LANES = s.hi - s.lo := Nat.mod_eq_of_lt (by omega)
        rw [e1, e2, e3, e4, e5]
        have e6 : s.hi - s.lo - 1 + 1 = s.hi - s.lo := by omega
        rw [e6]
      · have hz : s.hi - s.lo = 0 := by omega
        rw [hz]
        simp [runB, next_back_exhausted LANES s hL hz]

end SimdIterWindowsPtr

namespace SimdIterWindowsPtrMut

theorem next_batch_mut (LANES : Nat) (s : SimdIterWindowsPtrMut)
    (hperf : is_slice_perfect s.winLen s.sliceStride = true)
    (hb : LANES ≤ s.hi - s.lo) :
    next LANES s = .ok (some
      (.Simd ⟨⟨s.base + s.lo * s.iterStride, s.winLen, s.sliceStride⟩, s.iterStride⟩,
        ⟨s.base, s.winLen, s.sliceStride, s.iterStride, s.lo + LANES, s.hi⟩)) := by
  unfold next IterPtrMut.newChecked
  rw [if_pos hb, if_pos hperf]
  rfl

theorem next_single_mut (LANES : Nat) (s : SimdIterWindowsPtrMut)
    (hperf : is_slice_perfect s.winLen s.sliceStride = true)
    (hlt : s.hi - s.lo < LANES) (hpos : s.lo < s.hi) :
    next LANES s = .ok (some
      (.Single ⟨s.base + s.lo * s.iterStride, s.winLen, s.sliceStride⟩,
        ⟨s.base, s.winLen, s.sliceStride, s.iterStride, s.lo + 1, s.hi⟩)) := by
  unfold next IterPtrMut.newChecked
  rw [if_neg (by omega), if_pos hpos, if_pos hperf]
  rfl

theorem next_exhausted_mut (LANES : Nat) (s : SimdIterWindowsPtrMut)
    (hL : 1 ≤ LANES) (hz : s.hi - s.lo = 0) :
    next LANES s = .ok none := by
  unfold next
  rw [if_neg (by omega), if_neg (by omega)]

theorem next_back_batch_mut (LANES : Nat) (s : SimdIterWindowsPtrMut)
    (hperf : is_slice_perfect s.winLen s.sliceStride = true)
    (hb : LANES ≤ s.hi - s.lo) :
    next_back LANES s = .ok (some
      (.Simd ⟨⟨s.base + (s.hi - LANES) * s.iterStride, s.winLen, s.sliceStride⟩,
          s.iterStride⟩,
        ⟨s.base, s.winLen, s.sliceStride, s.iterStride, s.lo, s.hi - LANES⟩)) := by
  unfold next_back IterPtrMut.newChecked
  rw [if_pos hb, if_pos hperf]
  rfl

theorem next_back_single_mut (LANES : Nat) (s : SimdIterWindowsPtrMut)
    (hperf : is_slice_perfect s.winLen s.sliceStride = true)
    (hlt : s.hi - s.lo < LANES) (hpos : s.lo < s.hi) :
    next_back LANES s = .ok (some
      (.Single ⟨s.base + (s.hi - 1) * s.iterStride, s.winLen, s.sliceStride⟩,
        ⟨s.base, s.winLen, s.sliceStride, s.iterStride, s.lo, s.hi - 1⟩)) := by
  unfold next_back IterPtrMut.newChecked
  rw [if_neg (by omega), if_pos hpos, if_pos hperf]
  rfl

theorem next_back_exhausted_mut (LANES : Nat) (s : SimdIterWindowsPtrMut)
    (hL : 1 ≤ LANES) (hz : s.hi - s.lo = 0) :
    next_back LANES s = .ok none := by
  unfold next_back
  rw [if_neg (by omega), if_neg (by omega)]

theorem runF_counts_mut (LANES : Nat) (hL : 1 ≤ LANES) :
    ∀ (fuel : Nat) (s : SimdIterWindowsPtrMut),
      is_slice_perfect s.winLen s.sliceStride = true →
      s.hi - s.lo ≤ fuel →
      runF LANES fuel s = .ok ((s.hi - s.lo) / LANES, (s.hi - s.lo) % LANES) := by
  intro fuel
  induction fuel with
  | zero =>
    intro s hperf hle
    have hz : s.hi - s.lo = 0 := by omega
    rw [hz]
    simp [runF]
  | succ fuel ih =>
    intro s hperf hle
    by_cases hb : LANES ≤ s.hi - s.lo
    · have ih2 := ih ⟨s.base, s.winLen, s.sliceStride, s.iterStride,
        s.lo + LANES, s.hi⟩ hperf (show s.hi - (s.lo + LANES) ≤ fuel by omega)
      simp only [runF, next_batch_mut LANES s hperf hb, ih2, Except.map]
      have h1 : s.hi - s.lo = (s.hi - (s.lo + LANES)) + LANES := by omega
      rw [h1, Nat.add_div_right _ (by omega), Nat.add_mod_right]
    · by_cases hpos : s.lo < s.hi
      · have ih2 := ih ⟨s.base, s.winLen, s.sliceStride, s.iterStride,
          s.lo + 1, s.hi⟩ hperf (show s.hi - (s.lo + 1) ≤ fuel by omega)
        simp only [runF, next_single_mut LANES s hperf (by omega) hpos, ih2, Except.map]
        have e1 : s.hi - (s.lo + 1) = s.hi - s.lo - 1 := by omega
        have e2 : (s.hi - s.lo - 1) / LANES = 0 := Nat.div_eq_of_lt (by omega)
        have e3 : (s.hi - s.lo - 1) % LANES = s.hi - s.lo - 1 :=
          Nat.mod_eq_of_lt (by omega)
        have e4 : (s.hi - s.lo) / LANES = 0 := Nat.div_eq_of_lt (by omega)
        have e5 : (s.hi - s.lo) % LANES = s.hi - s.lo := Nat.mod_eq_of_lt (by omega)
        rw [e1, e2, e3, e4, e5]
        have e6 : s.hi - s.lo - 1 + 1 = s.hi - s.lo := by omega
        rw [e6]
      · have hz : s.hi - s.lo = 0 := by omega
        rw [hz]
        simp [runF, next_exhausted_mut LANES s hL hz]

theorem runB_counts_mut (LANES : Nat) (hL : 1 ≤ LANES) :
    ∀ (fuel : Nat) (s : SimdIterWindowsPtrMut),
      is_slice_perfect s.winLen s.sliceStride = true →
      s.hi - s.lo ≤ fuel →
      runB LANES fuel s = .ok ((s.hi - s.lo) / LANES, (s.hi - s.lo) % LANES) := by
  intro fuel
  induction fuel with
  | zero =>
    intro s hperf hle
    have hz : s.hi - s.lo = 0 := by omega
    rw [hz]
    simp [runB]
  | succ fuel ih =>
    intro s hperf hle
    by_cases hb : LANES ≤ s.hi - s.lo
    · have ih2 := ih ⟨s.base, s.winLen, s.sliceStride, s.iterStride,
        s.lo, s.hi - LANES⟩ hperf (show s.hi - LANES - s.lo ≤ fuel by omega)
      simp only [runB, next_back_batch_mut LANES s hperf hb, ih2, Except.map]
      have h1 : s.hi - s.lo = (s.hi - LANES - s.lo) + LANES := by omega
      rw [h1, Nat.add_div_right _ (by omega), Nat.add_mod_right]
    · by_cases hpos : s.lo < s.hi
      · have ih2 := ih ⟨s.base, s.winLen, s.sliceStride, s.iterStride,
          s.lo, s.hi - 1⟩ hperf (show s.hi - 1 - s.lo ≤ fuel by omega)
        simp only [runB, next_back_single_mut LANES s hperf (by omega) hpos, ih2,
          Except.map]
        have e1 : s.hi - 1 - s.lo = s.hi - s.lo - 1 := by omega
        have e2 : (s.hi - s.lo - 1) / LANES = 0 := Nat.div_eq_of_lt (by omega)
        have e3 : (s.hi - s.lo - 1) % LANES = s.hi - s.lo - 1 :=
          Nat.mod_eq_of_lt (by omega)
        have e4 : (s.hi - s.lo) / LANES = 0 := Nat.div_eq_of_lt (by omega)
        have e5 : (s.hi - s.lo) % LANES = s.hi - s.lo := Nat.mod_eq_of_lt (by omega)
        rw [e1, e2, e3, e4, e5]
        have e6 : s.hi - s.lo - 1 + 1 = s.hi - s.lo := by omega
        rw [e6]
      · have hz : s.hi - s.lo = 0 := by omega
        rw [hz]
        simp [runB, next_back_exhausted_mut LANES s hL hz]

end SimdIterWindowsPtrMut

/-- C6: for a lane window sequence (`SimdIterWindowsPtr` or
`SimdIterWindowsPtrMut`) with LANES ≥ 1, a slice-perfect anchor window and
a remaining index range of length rem: a forward step with rem ≥ LANES
consumes exactly LANES indices and emits a Batch (Simd) item anchored at
the first consumed index; with 0 < rem < LANES it consumes exactly one
index and emits a Single item; at rem = 0 it yields nothing; pure-forward
and pure-backward exhaustion each yield exactly rem / LANES Batch items and
rem % LANES Single items without panicking, so the number of remaining
steps is rem / LANES + rem % LANES, which is what `len()` reports at every
state. -/
theorem C6_lane_window_sequence (LANES : Nat) (s : SimdIterWindowsPtr)
    (m : SimdIterWindowsPtrMut) (hL : 1 ≤ LANES)
    (hperf : is_slice_perfect s.winLen s.sliceStride = true)
    (hmperf : is_slice_perfect m.winLen m.sliceStride = true) :
    (LANES ≤ s.hi - s.lo → SimdIterWindowsPtr.next LANES s = .ok (some
      (.Simd ⟨⟨s.base + s.lo * s.iterStride, s.winLen, s.sliceStride⟩,
          s.iterStride⟩,
        ⟨s.base, s.winLen, s.sliceStride, s.iterStride, s.lo + LANES, s.hi⟩))) ∧
    (0 < s.hi - s.lo → s.hi - s.lo < LANES →
      SimdIterWindowsPtr.next LANES s = .ok (some
        (.Single ⟨s.base + s.lo * s.iterStride, s.winLen, s.sliceStride⟩,
          ⟨s.base, s.winLen, s.sliceStride, s.iterStride, s.lo + 1, s.hi⟩))) ∧
    (s.hi - s.lo = 0 → SimdIterWindowsPtr.next LANES s = .ok none) ∧
    (∀ fuel, s.hi - s.lo ≤ fuel →
      SimdIterWindowsPtr.runF LANES fuel s
        = .ok ((s.hi - s.lo) / LANES, (s.hi - s.lo) % LANES) ∧
      SimdIterWindowsPtr.runB LANES fuel s
        = .ok ((s.hi - s.lo) / LANES, (s.hi - s.lo) % LANES)) ∧
    ((s.hi - s.lo) / LANES + (s.hi - s.lo) % LANES
      = SimdIterWindowsPtr.len LANES s) ∧
    (LANES ≤ m.hi - m.lo → SimdIterWindowsPtrMut.next LANES m = .ok (some
      (.Simd ⟨⟨m.base + m.lo * m.iterStride, m.winLen, m.sliceStride⟩,
          m.iterStride⟩,
        ⟨m.base, m.winLen, m.sliceStride, m.iterStride, m.lo + LANES, m.hi⟩))) ∧
    (0 < m.hi - m.lo → m.hi - m.lo < LANES →
      SimdIterWindowsPtrMut.next LANES m = .ok (some
        (.Single ⟨m.base + m.lo * m.iterStride, m.winLen, m.sliceStride⟩,
          ⟨m.base, m.winLen, m.sliceStride, m.iterStride, m.lo + 1, m.hi⟩))) ∧
    (m.hi - m.lo = 0 → SimdIterWindowsPtrMut.next LANES m = .ok none) ∧
    (∀ fuel, m.hi - m.lo ≤ fuel →
      SimdIterWindowsPtrMut.runF LANES fuel m
        = .ok ((m.hi - m.lo) / LANES, (m.hi - m.lo) % LANES) ∧
      SimdIterWindowsPtrMut.runB LANES fuel m
        = .ok ((m.hi - m.lo) / LANES, (m.hi - m.lo) % LANES)) ∧
    ((m.hi - m.lo) / LANES + (m.hi - m.lo) % LANES
      = SimdIterWindowsPtrMut.len LANES m) :=
  ⟨fun hb => SimdIterWindowsPtr.next_batch LANES s hperf hb,
    fun hpos hlt => SimdIterWindowsPtr.next_single LANES s hperf hlt (by omega),
    fun hz => SimdIterWindowsPtr.next_exhausted LANES s hL hz,
    fun fuel hf => ⟨SimdIterWindowsPtr.runF_counts LANES hL fuel s hperf hf,
      SimdIterWindowsPtr.runB_counts LANES hL fuel s hperf hf⟩,
    rfl,
    fun hb => SimdIterWindowsPtrMut.next_batch_mut LANES m hmperf hb,
    fun hpos hlt => SimdIterWindowsPtrMut.next_single_mut LANES m hmperf hlt (by omega),
    fun hz => SimdIterWindowsPtrMut.next_exhausted_mut LANES m hL hz,
    fun fuel hf => ⟨SimdIterWindowsPtrMut.runF_counts_mut LANES hL fuel m hmperf hf,
      SimdIterWindowsPtrMut.runB_counts_mut LANES hL fuel m hmperf hf⟩,
    rfl⟩

theorem C6_witness :
    (SimdIterWindowsPtr.runF 2 5 ⟨0, 3, 1, 5, 0, 5⟩ = .ok (2, 1) ∧
      SimdIterWindowsPtr.runB 2 5 ⟨0, 3, 1, 5, 0, 5⟩ = .ok (2, 1)) ∧
    SimdIterWindowsPtr.next 2 ⟨0, 3, 1, 5, 0, 5⟩ = .ok (some
      (.Simd ⟨⟨0, 3, 1⟩, 5⟩, ⟨0, 3, 1, 5, 2, 5⟩)) :=
  ⟨(C6_lane_window_sequence 2 ⟨0, 3, 1, 5, 0, 5⟩ ⟨0, 3, 1, 5, 0, 4⟩
      (by decide) (by decide) (by decide)).2.2.2.1 5 (by decide),
    (C6_lane_window_sequence 2 ⟨0, 3, 1, 5, 0, 5⟩ ⟨0, 3, 1, 5, 0, 4⟩
      (by decide) (by decide) (by decide)).1 (by decide)⟩

end ImgrefIter

